import Mathlib

/-!
Shallow embedding of the DBD column decoder (`read_columns`, ColumnData.C) and
the single/multi-file readers (`parse_single_file` / `parse_multiple_files`,
pybind module) of dbd2netcdf-python, together with proofs about them.

Byte streams are `List Nat` (one entry per byte). Machine integers are decoded
to `Int` with explicit two's-complement arithmetic. float32/float64 cells are
carried as IEEE-754 bit patterns (`Nat`): the decoder performs no float
arithmetic — it only reads values, tests them for infinity (a bit-pattern
predicate) and stores them — so this representation is exact. Components whose
sources are not in the tree (KnownBytes, Header, Sensors, SensorsMap) are
modelled from the specification and marked as such.
-/

deriving instance DecidableEq for Except

namespace Dbd

/-- A decoded cell value: int8/int16 as mathematical integers, float32/float64
as IEEE-754 bit patterns. -/
inductive Val where
  | i8 (v : Int)
  | i16 (v : Int)
  | f32 (bits : Nat)
  | f64 (bits : Nat)
deriving DecidableEq

/-- Modelled from the spec: fill sentinel for int8 columns (`FILL_INT8` from
ColumnData.H, which is not in the tree; the value -127 is fixed by §3 and §6
of the spec and by the changelog). -/
def FILL_INT8 : Int := -127

/-- Modelled from the spec: fill sentinel for int16 columns (`FILL_INT16`). -/
def FILL_INT16 : Int := -32768

/-- Bit pattern of the quiet NaN produced by the `NAN` macro (float32). -/
def QNAN32 : Nat := 0x7FC00000

/-- Bit pattern of the quiet NaN produced by the `NAN` macro (float64). -/
def QNAN64 : Nat := 0x7FF8000000000000

/-- Fill value of a column by sensor size, as in the allocation switch of
`read_columns` (cases 1/2/4/8; the default arm allocates a double column). -/
def fillVal (size : Nat) : Val :=
  match size with
  | 1 => .i8 FILL_INT8
  | 2 => .i16 FILL_INT16
  | 4 => .f32 QNAN32
  | 8 => .f64 QNAN64
  | _ => .f64 QNAN64

/-- Value-initialized element of a column by sensor size (what `vec.resize`
appends when extending: integer 0 or float 0.0, whose bit pattern is 0). -/
def zeroVal (size : Nat) : Val :=
  match size with
  | 1 => .i8 0
  | 2 => .i16 0
  | 4 => .f32 0
  | _ => .f64 0

/-- Result of the endianness probe: whether multi-byte reads flip byte order. -/
structure KnownBytes where
  flip : Bool
deriving DecidableEq

/-- Read exactly `n` bytes from the stream, or fail (short read). -/
def takeExact : Nat → List Nat → Option (List Nat × List Nat)
  | 0, s => some ([], s)
  | _ + 1, [] => none
  | n + 1, b :: s =>
    match takeExact n s with
    | some (bs, rest) => some (b :: bs, rest)
    | none => none

/-- Little-endian byte assembly: first byte least significant. -/
def leNat : List Nat → Nat
  | [] => 0
  | b :: bs => b + 256 * leNat bs

/-- Assemble bytes into an unsigned value, reversing byte order when `flip`. -/
def assemble (flip : Bool) (bytes : List Nat) : Nat :=
  leNat (if flip then bytes.reverse else bytes)

/-- Two's-complement reinterpretation of a `w`-bit unsigned value. -/
def toSigned (w : Nat) (v : Nat) : Int :=
  if v < 2 ^ (w - 1) then (v : Int) else (v : Int) - 2 ^ w

/-- IEEE-754 single-precision infinity test on a bit pattern. -/
def isInf32 (bits : Nat) : Bool := bits % 2 ^ 31 == 0x7F800000

/-- IEEE-754 double-precision infinity test on a bit pattern. -/
def isInf64 (bits : Nat) : Bool := bits % 2 ^ 63 == 0x7FF0000000000000

/-- Modelled from the spec: `KnownBytes::read8/16/32/64` (KnownBytes.H/C are
not in the tree). Each consumes exactly `k` bytes, reversing byte order when
the probe set `flip` (§4.C); a short read fails cleanly (§4.A, §4.E). -/
def readUnsigned (k : Nat) (kb : KnownBytes) (s : List Nat) :
    Option (Nat × List Nat) :=
  match takeExact k s with
  | some (bs, rest) => some (assemble kb.flip bs, rest)
  | none => none

/-- A sensor as `read_columns` sees it: name, units, width in bytes, the keep
and criteria flags and the output-column index (`Sensor` from Sensors.H). -/
structure Sensor where
  name : String
  units : String
  size : Nat
  qKeep : Bool
  qCriteria : Bool
  index : Int
deriving DecidableEq

/-- Output-column metadata (`SensorInfo` from ColumnData.H). -/
structure SensorInfo where
  name : String
  units : String
  size : Nat
deriving DecidableEq

instance : Inhabited SensorInfo := ⟨⟨"", "", 0⟩⟩

/-- Map a sensor to its output column: `outIndex[i]` is `s.index()` for kept
sensors and -1 otherwise (lines 35-45 of ColumnData.C). -/
def outIndex (s : Sensor) : Int := if s.qKeep then s.index else -1

/-- Pad a sensor-info list with value-initialized entries up to length `n`
(`sensorInfo.resize(s.index() + 1)`). -/
def padTo (info : List SensorInfo) (n : Nat) : List SensorInfo :=
  info ++ List.replicate (n - info.length) default

/-- Build the output-column metadata from the roster exactly as the setup loop
of `read_columns` does: for each kept sensor, grow the list to cover its index
and write its info there. Kept sensors produced by the pipeline carry
nonnegative indices (a negative index would crash the C++ via the size_t
cast), so `Int.toNat` is exact on the inputs that occur. -/
def buildSensorInfo (sensors : List Sensor) : List SensorInfo :=
  sensors.foldl
    (fun info s =>
      if s.qKeep then
        let idx := s.index.toNat
        let info := if info.length ≤ idx then padTo info (idx + 1) else info
        info.set idx ⟨s.name, s.units, s.size⟩
      else info)
    []

/-- Extract sensor `i`'s 2-bit code from the header-bit bytes:
`(bits[i >> 2] >> (6 - ((i & 3) << 1))) & 0x03`. (The C++ shifts a signed
char, but masking with 3 makes that agree with the unsigned-byte reading.) -/
def codeOf (bits : List Nat) (i : Nat) : Nat :=
  bits.getD (i / 4) 0 / 2 ^ (6 - i % 4 * 2) % 4

/-- Column growth: `if (nRows >= vec.size()) vec.resize(vec.size() * 2, fill)`.
The size test is phrased via `List.drop` so that evaluating it only forces the
first `nRows + 1` cells of the column. -/
def growIfNeeded (v : List Val) (nRows : Nat) (fill : Val) : List Val :=
  if (v.drop nRows).isEmpty then v ++ List.replicate v.length fill else v

/-- State while decoding one record: the remaining stream, the output columns,
the per-column previous values (`prevValues[oi][0]`) and the accumulated
commit flag `qKeep`. -/
structure RecState where
  stream : List Nat
  columns : List (List Val)
  prev : List Val
  qKeep : Bool
deriving DecidableEq

/-- Failures that abort a record: a short read while reading a value, or the
`MyException` thrown for an unknown sensor size. -/
inductive DecodeErr where
  | shortRead
  | unknownSize (size : Nat) (name : String)
deriving DecidableEq

/-- One sensor's action inside a record (the per-sensor loop body of
`read_columns`, lines 116-201 of ColumnData.C): extract the 2-bit code, fold
the sensor's criteria flag into `qKeep` for codes 1 and 2, and

* code 1: copy the previous value into the column cell at row `nRows`;
* code 2: read `size` bytes from the stream regardless of `keep`; for kept
  sensors store the value in the column cell and the previous-value cell, for
  non-kept sensors discard it; infinite float values are rewritten to NaN;
  an unknown size raises (the thrown `MyException`);
* codes 0 and 3: do nothing.

`fills` are the per-output-column fill values fixed at allocation (used when a
column grows). Out-of-range column indices would be undefined behavior in the
C++; here reads default and writes out of range are no-ops. -/
def processSensor (kb : KnownBytes) (fills : List Val) (bits : List Nat)
    (nRows : Nat) (i : Nat) (s : Sensor) (st : RecState) :
    Except DecodeErr RecState :=
  let code := codeOf bits i
  if code = 1 then
    let qK := st.qKeep || s.qCriteria
    let oi := outIndex s
    if oi < 0 then .ok { st with qKeep := qK }
    else
      let n := oi.toNat
      let fill := fills.getD n (.f64 QNAN64)
      let col := (growIfNeeded (st.columns.getD n []) nRows fill).set nRows
        (st.prev.getD n fill)
      .ok { st with columns := st.columns.set n col, qKeep := qK }
  else if code = 2 then
    let qK := st.qKeep || s.qCriteria
    let oi := outIndex s
    match s.size with
    | 1 =>
      match readUnsigned 1 kb st.stream with
      | none => .error .shortRead
      | some (u, rest) =>
        let v : Val := .i8 (toSigned 8 u)
        if oi < 0 then .ok { st with stream := rest, qKeep := qK }
        else
          let n := oi.toNat
          let col := (growIfNeeded (st.columns.getD n []) nRows
            (.i8 FILL_INT8)).set nRows v
          .ok ⟨rest, st.columns.set n col, st.prev.set n v, qK⟩
    | 2 =>
      match readUnsigned 2 kb st.stream with
      | none => .error .shortRead
      | some (u, rest) =>
        let v : Val := .i16 (toSigned 16 u)
        if oi < 0 then .ok { st with stream := rest, qKeep := qK }
        else
          let n := oi.toNat
          let col := (growIfNeeded (st.columns.getD n []) nRows
            (.i16 FILL_INT16)).set nRows v
          .ok ⟨rest, st.columns.set n col, st.prev.set n v, qK⟩
    | 4 =>
      match readUnsigned 4 kb st.stream with
      | none => .error .shortRead
      | some (u, rest) =>
        let v : Val := .f32 (if isInf32 u then QNAN32 else u)
        if oi < 0 then .ok { st with stream := rest, qKeep := qK }
        else
          let n := oi.toNat
          let col := (growIfNeeded (st.columns.getD n []) nRows
            (.f32 QNAN32)).set nRows v
          .ok ⟨rest, st.columns.set n col, st.prev.set n v, qK⟩
    | 8 =>
      match readUnsigned 8 kb st.stream with
      | none => .error .shortRead
      | some (u, rest) =>
        let v : Val := .f64 (if isInf64 u then QNAN64 else u)
        if oi < 0 then .ok { st with stream := rest, qKeep := qK }
        else
          let n := oi.toNat
          let col := (growIfNeeded (st.columns.getD n []) nRows
            (.f64 QNAN64)).set nRows v
          .ok ⟨rest, st.columns.set n col, st.prev.set n v, qK⟩
    | sz => .error (.unknownSize sz s.name)
  else .ok st

/-- Process every sensor of a record in file order (`for i in 0..nSensors`). -/
def processSensors (kb : KnownBytes) (fills : List Val) (bits : List Nat)
    (nRows : Nat) : List (Nat × Sensor) → RecState → Except DecodeErr RecState
  | [], st => .ok st
  | (i, s) :: rest, st =>
    match processSensor kb fills bits nRows i s st with
    | .error e => .error e
    | .ok st' => processSensors kb fills bits nRows rest st'

/-- Forward scan after a stray tag byte (lines 97-104 of ColumnData.C):
consume bytes until a `'d'` (0x64) is found, returning the stream after it,
or `none` at end of stream. A scanned `'X'` byte is not special here. -/
def scanForD : List Nat → Option (List Nat)
  | [] => none
  | c :: rest => if c = 100 then some rest else scanForD rest

/-- State between records: remaining stream, columns, previous values and the
committed row count. -/
structure DecodeState where
  stream : List Nat
  columns : List (List Val)
  prev : List Val
  nRows : Nat
deriving DecidableEq

/-- The record loop of `read_columns` (lines 83-206 of ColumnData.C), with
fuel. Each iteration: read the tag byte (end of stream stops), `'X'` stops,
any other byte triggers the forward scan for `'d'` (continuing only in repair
mode); then the header-bit bytes are read (short read stops) and the sensors
processed (a record failure stops, discarding that record's work — in the C++
the discarded scratch-row and previous-value writes of the failed record are
trimmed away or never read, so returning the pre-record state is
observationally identical); a surviving record is committed exactly when
`qKeep` was set. Fuel never runs out when it exceeds the stream length, since
every iteration consumes at least the tag byte. -/
def loopAux (kb : KnownBytes) (sensors : List (Nat × Sensor)) (qRepair : Bool)
    (fills : List Val) (nHeader : Nat) : Nat → DecodeState → DecodeState
  | 0, st => st
  | fuel + 1, st =>
    match st.stream with
    | [] => st
    | tag :: rest =>
      if tag = 88 then st
      else
        let cont : Option (List Nat) :=
          if tag = 100 then some rest
          else
            match scanForD rest with
            | some r => if qRepair then some r else none
            | none => none
        match cont with
        | none => st
        | some s1 =>
          match takeExact nHeader s1 with
          | none => st
          | some (bits, s2) =>
            match processSensors kb fills bits st.nRows sensors
                ⟨s2, st.columns, st.prev, false⟩ with
            | .error _ => st
            | .ok r =>
              loopAux kb sensors qRepair fills nHeader fuel
                ⟨r.stream, r.columns, r.prev,
                 if r.qKeep then st.nRows + 1 else st.nRows⟩

/-- Mirror of the final `vec.resize(nRows)`: truncate to `n`, or extend with
value-initialized elements in the degenerate case where a column was never
grown past `n`. Phrased with `take` so evaluation does not force the column's
capacity padding. -/
def listResize (v : List Val) (n : Nat) (z : Val) : List Val :=
  let t := v.take n
  t ++ List.replicate (n - t.length) z

/-- Result of `read_columns` (`ColumnDataResult` from ColumnData.H). -/
structure ColumnDataResult where
  columns : List (List Val)
  sensor_info : List SensorInfo
  n_records : Nat
deriving DecidableEq

/-- The column decoder `read_columns` (ColumnData.C lines 14-221): build the
output metadata and fill values, allocate the columns at the initial capacity
estimate pre-filled with the type's fill value, initialize the previous values
to the fill values, run the record loop, and trim every column to the
committed row count. -/
def read_columns (stream : List Nat) (kb : KnownBytes) (sensors : List Sensor)
    (qRepair : Bool) (nBytes : Nat) : ColumnDataResult :=
  let nHeader := (sensors.length + 3) / 4
  let sensorInfo := buildSensorInfo sensors
  let initCapacity := max 256 (2 * nBytes / (nHeader + 1) + 1)
  let fills := sensorInfo.map (fun si => fillVal si.size)
  let columns := fills.map (fun f => List.replicate initCapacity f)
  let fin := loopAux kb sensors.enum qRepair fills nHeader (stream.length + 1)
    ⟨stream, columns, fills, 0⟩
  ⟨(fin.columns.zip sensorInfo).map
      (fun p => listResize p.1 fin.nRows (zeroVal p.2.size)),
   sensorInfo, fin.nRows⟩

/-- A sensor-definition line's payload: name, units and width in bytes. -/
structure RosterEntry where
  name : String
  units : String
  size : Nat
deriving DecidableEq

/-- Modelled from the spec: the per-file front end. `DecompressTWR`, `Header`
and `Sensors` sources are not in the tree, so a file is abstracted by what
they yield: whether the open succeeds, whether the header is nonempty, the
mission name, the `factored` flag, the inline sensor-line count
(`hdr.nSensors()`), the sensor-list CRC, the resolved available-sensor roster
(inline or from the cache — cache handling affects only where the roster comes
from, not the parse), and the byte stream positioned just after the header. -/
structure FileModel where
  openOk : Bool
  headerOk : Bool
  mission : String
  factored : Bool
  nSensors : Nat
  crc : String
  roster : List RosterEntry
  afterHeader : List Nat
deriving DecidableEq

/-- Modelled from the spec: `Header::qProcessMission` (§4.B, Header.C not in
the tree): true iff the mission is not in `skip` and, when `keep` is
nonempty, is in `keep`. -/
def qProcessMission (mission : String) (skip keep : List String) : Bool :=
  !(skip.contains mission) && (keep.isEmpty || keep.contains mission)

/-- Modelled from the spec: the sensors map of pass 1 (§4.F, SensorsMap not in
the tree): the CRCs already inserted and the union roster in first-encounter
order. -/
structure SMap where
  crcs : List String
  union : List RosterEntry
deriving DecidableEq

/-- The `FormatError` raised for a size-mismatched sensor across files. -/
inductive MergeErr where
  | formatError
deriving DecidableEq

/-- Modelled from the spec: adding one sensor to the union roster (§4.F):
a new name is appended, a known name must have the same size (mismatch raises
`FormatError`); units adopt the first occurrence. -/
def insertEntry (u : List RosterEntry) (e : RosterEntry) :
    Except MergeErr (List RosterEntry) :=
  match u.find? (fun x => x.name == e.name) with
  | some x => if x.size = e.size then .ok u else .error .formatError
  | none => .ok (u ++ [e])

/-- Fold a whole roster into the union roster. -/
def insertRoster (u : List RosterEntry) :
    List RosterEntry → Except MergeErr (List RosterEntry)
  | [] => .ok u
  | e :: rest =>
    match insertEntry u e with
    | .error er => .error er
    | .ok u' => insertRoster u' rest

/-- Modelled from the spec: `SensorsMap::insert` (§4.F): files sharing a CRC
share the existing roster entry; a new CRC merges its roster into the union. -/
def smapInsert (m : SMap) (crc : String) (roster : List RosterEntry) :
    Except MergeErr SMap :=
  if m.crcs.contains crc then .ok m
  else
    match insertRoster m.union roster with
    | .error e => .error e
    | .ok u => .ok ⟨m.crcs ++ [crc], u⟩

/-- Pass 1 of `parse_multiple_files` (lines 394-406): per file, a failed open,
an empty header or a filtered-out mission skips the file; `smap.insert` runs
inside the try block, so a raised error is also caught and skips the file;
surviving files are appended to `valid_files`. -/
def pass1 (skipM keepM : List String) :
    List (String × FileModel) → SMap → List (String × FileModel) →
    SMap × List (String × FileModel)
  | [], m, acc => (m, acc)
  | (fn, fm) :: fs, m, acc =>
    if !fm.openOk then pass1 skipM keepM fs m acc
    else if !fm.headerOk then pass1 skipM keepM fs m acc
    else if !qProcessMission fm.mission skipM keepM then pass1 skipM keepM fs m acc
    else
      match smapInsert m fm.crc fm.roster with
      | .error _ => pass1 skipM keepM fs m acc
      | .ok m' => pass1 skipM keepM fs m' (acc ++ [(fn, fm)])

/-- Modelled from the spec: the keep/criteria masks (§4.D, Sensors.C not in
the tree). The C++ applies `qKeep`/`qCriteria` only when the name set is
nonempty; an empty set leaves every sensor selected. -/
def maskName (names : List String) (n : String) : Bool :=
  names.isEmpty || names.contains n

/-- Modelled from the spec: output-index assignment (§4.D, `setUpForData`):
the dense enumeration of kept sensors in order; non-kept sensors carry no
output index. -/
def assignIndices : Nat → List Sensor → List Sensor
  | _, [] => []
  | k, s :: rest =>
    if s.qKeep then { s with index := (k : Int) } :: assignIndices (k + 1) rest
    else { s with index := -1 } :: assignIndices k rest

/-- A roster turned into sensors with the keep/criteria masks applied (the
indices are assigned afterwards). -/
def maskedRoster (to_keep criteria : List String) (roster : List RosterEntry) :
    List Sensor :=
  roster.map (fun e =>
    ⟨e.name, e.units, e.size, maskName to_keep e.name, maskName criteria e.name, -1⟩)

/-- Modelled from the spec: the union roster after pass 1, with keep/criteria
masks applied and dense output indices assigned (§4.F). -/
def unionSensors (m : SMap) (to_keep criteria : List String) : List Sensor :=
  assignIndices 0 (maskedRoster to_keep criteria m.union)

/-- Count of sensors marked keep (`Sensors::nToStore`). -/
def nToStore (ss : List Sensor) : Nat := (ss.filter (·.qKeep)).length

/-- Union output metadata (lines 424-434 of the pybind module): a
`nToStore`-sized list, filled at each kept sensor's index when that index is
in range (the C++ casts the index to `size_t`, so a negative index fails the
bound check and is skipped). -/
def buildUnionInfo (allSensors : List Sensor) : List SensorInfo :=
  let nOut := nToStore allSensors
  allSensors.foldl
    (fun info s =>
      if s.qKeep then
        if 0 ≤ s.index ∧ s.index.toNat < nOut then
          info.set s.index.toNat ⟨s.name, s.units, s.size⟩
        else info
      else info)
    (List.replicate nOut default)

/-- Modelled from the spec: `smap.find(hdr)` in pass 2 (§4.F): the file's own
roster re-indexed so that each sensor carries the union's keep/criteria flags
and output index for its name; `find` does no stream I/O. -/
def reindexRoster (union : List Sensor) (roster : List RosterEntry) : List Sensor :=
  roster.map (fun e =>
    match union.find? (fun u => u.name == e.name) with
    | some u => ⟨e.name, e.units, e.size, u.qKeep, u.qCriteria, u.index⟩
    | none => ⟨e.name, e.units, e.size, false, false, -1⟩)

/-- The effect of one `std::getline`: consume bytes up to and including the
next newline, or to end of stream. -/
def skipLine : List Nat → List Nat
  | [] => []
  | c :: rest => if c = 10 then rest else skipLine rest

/-- Skip `n` lines (`for (int i = hdr.nSensors(); i > 0; --i) getline(...)`,
lines 452-457 of the pybind module). -/
def skipLines : Nat → List Nat → List Nat
  | 0, s => s
  | n + 1, s => skipLines n (skipLine s)

/-- Bit pattern of float32 123.456, the known-bytes float constant. -/
def F32CONST : Nat := 0x42F6E979

/-- Bit pattern of float64 123456789.12345, the known-bytes double constant. -/
def F64CONST : Nat := 0x419D6F34547E69AD

/-- Within-1-ULP comparison of two bit patterns. -/
def near (a b : Nat) : Bool := a ≤ b + 1 && b ≤ a + 1

/-- Modelled from the spec: the endianness probe (§4.C, KnownBytes.C not in
the tree). Consume exactly 16 bytes: 's', 'a', an int16 that must equal
0x1234 in native or flipped order (fixing `flip`), then the float32 and
float64 constants validated within 1 ULP after the flip. Any validation
failure raises `FormatError`. -/
def knownBytes (s : List Nat) : Except Unit (KnownBytes × List Nat) :=
  match takeExact 16 s with
  | none => .error ()
  | some (bs, rest) =>
    match bs with
    | [b0, b1, b2, b3, b4, b5, b6, b7, b8, b9, b10, b11, b12, b13, b14, b15] =>
      if b0 = 115 ∧ b1 = 97 then
        if assemble false [b2, b3] = 0x1234 ∨ assemble true [b2, b3] = 0x1234 then
          let flip := !(assemble false [b2, b3] = 0x1234 : Bool)
          if near (assemble flip [b4, b5, b6, b7]) F32CONST
              && near (assemble flip [b8, b9, b10, b11, b12, b13, b14, b15]) F64CONST
          then .ok (⟨flip⟩, rest)
          else .error ()
        else .error ()
      else .error ()
    | _ => .error ()

/-- Accumulator of pass 2: the per-file results in parse order and the running
total record count. -/
structure Pass2Out where
  allData : List ColumnDataResult
  total : Nat
deriving DecidableEq

/-- Pass 2 of `parse_multiple_files` (lines 443-470): per surviving file,
re-open and re-parse the header (failures skip the file — the catch around the
body also swallows the `FormatError` of an invalid known-bytes block, skipping
the file); skip the inline sensor lines of unfactored files; run the probe and
`read_columns` with the union-aligned roster and `nBytes = 1024*1024`; count
the file's contribution, dropping one record when `skip_first_record` is set,
`allData` is already nonempty and the file has at least one record. -/
def pass2 (union : List Sensor) (skipFirst repair : Bool) :
    List (String × FileModel) → Pass2Out → Pass2Out
  | [], out => out
  | (_, fm) :: fs, out =>
    if !fm.openOk then pass2 union skipFirst repair fs out
    else if !fm.headerOk then pass2 union skipFirst repair fs out
    else
      let s0 := if !fm.factored then skipLines fm.nSensors fm.afterHeader
                else fm.afterHeader
      match knownBytes s0 with
      | .error _ => pass2 union skipFirst repair fs out
      | .ok (kb, s1) =>
        let result := read_columns s1 kb (reindexRoster union fm.roster) repair
          (1024 * 1024)
        let n := if skipFirst && !out.allData.isEmpty && result.n_records > 0
                 then result.n_records - 1 else result.n_records
        pass2 union skipFirst repair fs ⟨out.allData ++ [result], out.total + n⟩

/-- Allocate the union columns at the total record count, pre-filled with each
column's fill sentinel (lines 472-482). -/
def allocUnionColumns (unionInfo : List SensorInfo) (total : Nat) :
    List (List Val) :=
  unionInfo.map (fun si => List.replicate total (fillVal si.size))

/-- The name-to-index map over the union metadata (lines 485-488); built by
ascending index with overwrite, so the last occurrence of a name wins. -/
def unionNameIdx (unionInfo : List SensorInfo) (name : String) : Option Nat :=
  unionInfo.enum.foldl (fun acc p => if p.2.name == name then some p.1 else acc)
    none

/-- The innermost copy: `for r < n: dst[offset + r] = src[start + r]`. -/
def writeRows (dst : List Val) (offset : Nat) (src : List Val) (start n : Nat) :
    List Val :=
  (List.range n).foldl (fun d r => d.set (offset + r) (src.getD (start + r) (.i8 0)))
    dst

/-- Copy one file's columns into the union columns by sensor name
(lines 502-515); a name missing from the union map is skipped. -/
def copyFile (unionInfo : List SensorInfo) (fd : ColumnDataResult)
    (offset start n : Nat) (cols : List (List Val)) : List (List Val) :=
  fd.columns.enum.foldl
    (fun cs p =>
      match unionNameIdx unionInfo (fd.sensor_info.getD p.1 default).name with
      | none => cs
      | some ui => cs.set ui (writeRows (cs.getD ui []) offset p.2 start n))
    cols

/-- The merge copy loop (lines 491-517): for the file at position `fi` in
`allData`, drop the first row when `skip_first_record` is set, `fi > 0` and
the file has records; skip empty contributions; advance the offset. -/
def copyAll (unionInfo : List SensorInfo) (skipFirst : Bool) :
    List ColumnDataResult → Nat → Nat → List (List Val) → List (List Val)
  | [], _, _, cols => cols
  | fd :: rest, fi, offset, cols =>
    let start := if skipFirst && fi > 0 && fd.n_records > 0 then 1 else 0
    let n := fd.n_records - start
    if n = 0 then copyAll unionInfo skipFirst rest (fi + 1) offset cols
    else copyAll unionInfo skipFirst rest (fi + 1) (offset + n)
      (copyFile unionInfo fd offset start n cols)

/-- Lexicographic strict comparison on character lists by code point, the
order `std::sort` uses on the (ASCII) filenames. -/
def chLt : List Char → List Char → Bool
  | [], [] => false
  | [], _ :: _ => true
  | _ :: _, [] => false
  | a :: as, b :: bs =>
    if a.val.toNat < b.val.toNat then true
    else if b.val.toNat < a.val.toNat then false
    else chLt as bs

/-- String order for the filename sort. -/
def strLe (a b : String) : Bool := !chLt b.data a.data

/-- Insert into a lexicographically sorted list (`std::sort` on filenames). -/
def insertSorted (x : String) : List String → List String
  | [] => [x]
  | y :: ys => if strLe x y then x :: y :: ys else y :: insertSorted x ys

/-- Result of `parse_multiple_files` (`MultiFileResult`). -/
structure MultiFileResult where
  columns : List (List Val)
  sensor_info : List SensorInfo
  n_records : Nat
  n_files : Nat
deriving DecidableEq

/-- The sorted filename list paired with what the filesystem yields for each
name (`std::sort`, then each file opened by path). -/
def sortedFiles (fsys : String → FileModel) (filenames : List String) :
    List (String × FileModel) :=
  (filenames.foldr insertSorted []).map (fun fn => (fn, fsys fn))

/-- The pass-1 scan over the sorted files starting from the empty sensors map
and the empty valid-file list. -/
def pass1Of (fsys : String → FileModel) (filenames skipM keepM : List String) :
    SMap × List (String × FileModel) :=
  pass1 skipM keepM (sortedFiles fsys filenames) ⟨[], []⟩ []

/-- The multi-file reader `parse_multiple_files` (pybind module lines
369-525). `fsys` stands for the filesystem: what opening each path yields.
An empty filename list returns the empty result at once; otherwise the names
are sorted, pass 1 scans headers and builds the union roster, the keep and
criteria masks are applied and dense indices assigned, pass 2 decodes each
surviving file, and the per-file results are copied into sentinel-filled
union columns by name. -/
def parse_multiple_files (fsys : String → FileModel) (filenames : List String)
    (to_keep criteria skipM keepM : List String) (skipFirst repair : Bool) :
    MultiFileResult :=
  if filenames.isEmpty then ⟨[], [], 0, 0⟩
  else
    let p1 := pass1Of fsys filenames skipM keepM
    if p1.2.isEmpty then ⟨[], [], 0, 0⟩
    else
      let allSensors := unionSensors p1.1 to_keep criteria
      let unionInfo := buildUnionInfo allSensors
      let p2 := pass2 allSensors skipFirst repair p1.2 ⟨[], 0⟩
      ⟨copyAll unionInfo skipFirst p2.allData 0 0
          (allocUnionColumns unionInfo p2.total),
       unionInfo, p2.total, p1.2.length⟩

/-- Errors surfaced by the single-file reader. -/
inductive SingleErr where
  | openErr
  | headerErr
  | noSensors
  | formatErr
deriving DecidableEq

/-- Result of `parse_single_file` (`SingleFileResult`; the header fields and
filename, which the parse only copies, are omitted). -/
structure SingleFileResult where
  columns : List (List Val)
  sensor_info : List SensorInfo
  n_records : Nat
  start : Nat
deriving DecidableEq

/-- The single-file reader `parse_single_file` (pybind module lines 309-367):
open and header failures and an empty roster surface as errors; the inline
sensor lines are consumed by the `Sensors` constructor for unfactored files;
the keep/criteria masks are applied and dense indices assigned; the probe and
`read_columns` run with `nBytes = 1024*1024`; with `skip_first_record` set and
at least one record, `start` becomes 1 and the reported count drops by one. -/
def parse_single_file (fm : FileModel) (to_keep criteria : List String)
    (skipFirst repair : Bool) : Except SingleErr SingleFileResult :=
  if !fm.openOk then .error .openErr
  else if !fm.headerOk then .error .headerErr
  else
    let s0 := if !fm.factored then skipLines fm.nSensors fm.afterHeader
              else fm.afterHeader
    if fm.roster.isEmpty then .error .noSensors
    else
      let sensors := assignIndices 0 (maskedRoster to_keep criteria fm.roster)
      match knownBytes s0 with
      | .error _ => .error .formatErr
      | .ok (kb, s1) =>
        let result := read_columns s1 kb sensors repair (1024 * 1024)
        let start := if skipFirst && result.n_records > 0 then 1 else 0
        .ok ⟨result.columns, result.sensor_info, result.n_records - start, start⟩

/-- The columns the single-file reader hands to the caller: each column sliced
from `start` (the `arr[start:]` slice applied when converting to Python). -/
def singleColumns (r : SingleFileResult) : List (List Val) :=
  r.columns.map (fun c => c.drop r.start)

/-! ### Derived notions used by the statements -/

/-- Everything `read_columns` keeps from the loop's final state: the columns,
the previous values and the committed row count (the leftover stream is
dropped). -/
def loopOut (st : DecodeState) : List (List Val) × List Val × Nat :=
  (st.columns, st.prev, st.nRows)

/-- Whether some sensor with the criteria flag has code 1 or 2 in the record:
the condition under which the record loop commits a record. -/
def recKeepB (bits : List Nat) (ss : List (Nat × Sensor)) : Bool :=
  ss.any (fun p => p.2.qCriteria &&
    (decide (codeOf bits p.1 = 1) || decide (codeOf bits p.1 = 2)))

/-- How many records the file at parse position `fi` contributes to the union
under the skip-first-record policy, given its own record count `n`. -/
def contribution (skipFirst : Bool) (fi n : Nat) : Nat :=
  if skipFirst && fi > 0 && n > 0 then n - 1 else n

/-- The per-file decode results of pass 2, in parse order, independent of the
accumulator (the skip conditions and the per-file pipeline do not look at
earlier results). -/
def parsedResults (union : List Sensor) (repair : Bool) :
    List (String × FileModel) → List ColumnDataResult
  | [] => []
  | (_, fm) :: fs =>
    if !fm.openOk then parsedResults union repair fs
    else if !fm.headerOk then parsedResults union repair fs
    else
      let s0 := if !fm.factored then skipLines fm.nSensors fm.afterHeader
                else fm.afterHeader
      match knownBytes s0 with
      | .error _ => parsedResults union repair fs
      | .ok (kb, s1) =>
        read_columns s1 kb (reindexRoster union fm.roster) repair (1024 * 1024) ::
          parsedResults union repair fs

/-- Sum of the per-file contributions starting at parse position `fi`. -/
def sumContrib (skipFirst : Bool) : Nat → List ColumnDataResult → Nat
  | _, [] => 0
  | fi, fd :: rest =>
    contribution skipFirst fi fd.n_records + sumContrib skipFirst (fi + 1) rest

/-- Whether one of `fd`'s columns projects onto union column `j` by name. -/
def writesCol (unionInfo : List SensorInfo) (fd : ColumnDataResult) (j : Nat) :
    Bool :=
  fd.columns.enum.any (fun p =>
    unionNameIdx unionInfo (fd.sensor_info.getD p.1 default).name == some j)

/-- Which union cells the merge copy loop writes: the file at position `fi`
writes union column `j` at the rows `offset ≤ r < offset + n` of its slice
when one of its columns maps to `j` by name. -/
def rowWritten (unionInfo : List SensorInfo) (skipFirst : Bool) :
    List ColumnDataResult → Nat → Nat → Nat → Nat → Bool
  | [], _, _, _, _ => false
  | fd :: rest, fi, offset, j, r =>
    let start := if skipFirst && fi > 0 && fd.n_records > 0 then 1 else 0
    let n := fd.n_records - start
    if n = 0 then rowWritten unionInfo skipFirst rest (fi + 1) offset j r
    else
      (writesCol unionInfo fd j && decide (offset ≤ r) && decide (r < offset + n)) ||
        rowWritten unionInfo skipFirst rest (fi + 1) (offset + n) j r

/-- The kept sensors' metadata in order: the common value of the per-file and
union metadata constructions once dense indices are assigned. -/
def keptInfos (ss : List Sensor) : List SensorInfo :=
  (ss.filter (fun s => s.qKeep)).map (fun s => ⟨s.name, s.units, s.size⟩)

/-! ### Concrete inputs used by witnesses and counterexamples -/

/-- A valid known-bytes block in native little-endian order: 's', 'a', 0x1234,
float32 123.456 and float64 123456789.12345. -/
def kbBlock : List Nat :=
  [115, 97, 52, 18, 121, 233, 246, 66, 173, 105, 126, 84, 52, 111, 157, 65]

/-- A kept sensor that is not a criteria sensor. -/
def sKeepOnly : Sensor := ⟨"a", "u", 1, true, false, 0⟩

/-- A criteria sensor that is not kept. -/
def sCritOnly : Sensor := ⟨"t", "u", 1, false, true, -1⟩

/-- A factored file that parses cleanly and contributes zero records (its data
region is a lone `'X'`). -/
def fileA : FileModel :=
  ⟨true, true, "m", true, 0, "c0", [⟨"a", "u", 1⟩], kbBlock ++ [88]⟩

/-- A factored file with one int8 sensor and two records (values 5 and 7). -/
def fileB : FileModel :=
  ⟨true, true, "m", true, 0, "c1", [⟨"a", "u", 1⟩],
   kbBlock ++ [100, 128, 5, 100, 128, 7, 88]⟩

/-- A file whose known-bytes block is invalid (16 zero bytes): the probe's
validation fails with `FormatError` in pass 2. -/
def fileBad : FileModel :=
  ⟨true, true, "m", true, 0, "c2", [⟨"a", "u", 1⟩], List.replicate 16 0⟩

/-- Filesystem mapping "a" to the zero-record file and everything else to the
two-record file. -/
def fsAB : String → FileModel := fun fn => if fn = "a" then fileA else fileB

/-- Filesystem mapping "a" to the invalid-known-bytes file and everything else
to the two-record file. -/
def fsBad : String → FileModel := fun fn => if fn = "a" then fileBad else fileB

/-- A file with a single int8 sensor "x" and one record (value 5). -/
def fileP : FileModel :=
  ⟨true, true, "m", true, 0, "cp", [⟨"x", "u", 1⟩], kbBlock ++ [100, 128, 5, 88]⟩

/-- A file with a single int16 sensor "z" and one record (value 300). -/
def fileQ : FileModel :=
  ⟨true, true, "m", true, 0, "cq", [⟨"z", "u", 2⟩],
   kbBlock ++ [100, 128, 44, 1, 88]⟩

/-- Filesystem with two disjoint-roster files. -/
def fsPQ : String → FileModel := fun fn => if fn = "p" then fileP else fileQ

/-! ### General helper lemmas -/

theorem take_set_le {α : Type} (l : List α) (a : α) {m n : Nat} (h : m ≤ n) :
    (l.set n a).take m = l.take m := by
  induction l generalizing m n with
  | nil => simp
  | cons x xs ih =>
    cases n with
    | zero =>
      have : m = 0 := Nat.le_zero.mp h
      simp [this]
    | succ k =>
      cases m with
      | zero => simp
      | succ j =>
        simp only [List.set, List.take]
        rw [ih (Nat.le_of_succ_le_succ h)]

theorem take_append_left {α : Type} (l r : List α) {m : Nat} (h : m ≤ l.length) :
    (l ++ r).take m = l.take m := by
  induction l generalizing m with
  | nil =>
    have : m = 0 := Nat.le_zero.mp (by simpa using h)
    simp [this]
  | cons x xs ih =>
    cases m with
    | zero => simp
    | succ j =>
      simp only [List.cons_append, List.take, List.append_eq]
      rw [ih (Nat.le_of_succ_le_succ (by simpa using h))]

theorem getD_set_ne {α : Type} (l : List α) (a d : α) {i n : Nat} (h : i ≠ n) :
    (l.set n a).getD i d = l.getD i d := by
  simp [List.getD, List.getElem?_set_ne (Ne.symm h)]

theorem takeExact_of_le {n : Nat} {l : List Nat} (h : n ≤ l.length) :
    takeExact n l = some (l.take n, l.drop n) := by
  induction n generalizing l with
  | zero => simp [takeExact]
  | succ k ih =>
    cases l with
    | nil => simp at h
    | cons b bs =>
      simp only [takeExact, ih (Nat.le_of_succ_le_succ (by simpa using h))]
      simp [List.take, List.drop]

theorem scanForD_of_not_mem {l : List Nat} (h : 100 ∉ l) : scanForD l = none := by
  induction l with
  | nil => rfl
  | cons c cs ih =>
    have hc : c ≠ 100 := fun hc => h (hc ▸ List.mem_cons_self c cs)
    have hcs : 100 ∉ cs := fun hm => h (List.mem_cons_of_mem c hm)
    simp [scanForD, hc, ih hcs]

theorem scanForD_append (junk rest : List Nat) (h : 100 ∉ junk) :
    scanForD (junk ++ 100 :: rest) = some rest := by
  induction junk with
  | nil => simp [scanForD]
  | cons c cs ih =>
    have hc : c ≠ 100 := fun hc => h (hc ▸ List.mem_cons_self c cs)
    have hcs : 100 ∉ cs := fun hm => h (List.mem_cons_of_mem c hm)
    simp [scanForD, hc, ih hcs]

/-! ### C7 — the forward scan never stops at an `'X'` byte -/

/-- C7: when the record loop of `read_columns` meets a stray byte (neither
`'d'` = 100 nor `'X'` = 88) at a tag position in repair mode, parsing
continues exactly as if the next `'d'` had been the tag, no matter which
bytes — `'X'` included — lie in between; and the scan comes back empty only
when no `'d'` remains at all, i.e. it stops only at a `'d'` byte or at end of
stream. -/
theorem loopAux_scan_ignores_X (kb : KnownBytes) (sensors : List (Nat × Sensor))
    (fills : List Val) (nHeader fuel : Nat) (tag : Nat) (junk rest : List Nat)
    (cols : List (List Val)) (prev : List Val) (n : Nat)
    (htagd : tag ≠ 100) (htagx : tag ≠ 88) (hjunk : 100 ∉ junk) :
    loopOut (loopAux kb sensors true fills nHeader (fuel + 1)
        ⟨tag :: (junk ++ 100 :: rest), cols, prev, n⟩) =
      loopOut (loopAux kb sensors true fills nHeader (fuel + 1)
        ⟨100 :: rest, cols, prev, n⟩) ∧
    scanForD junk = none := by
  refine ⟨?_, scanForD_of_not_mem hjunk⟩
  conv_lhs => rw [loopAux]
  conv_rhs => rw [loopAux]
  simp only [htagd, htagx, scanForD_append junk rest hjunk]
  norm_num
  split
  · rfl
  · split <;> rfl

/-- Witness for C7 at a concrete input: stray tag 119, with two `'X'` bytes
between it and the next `'d'`. -/
theorem loopAux_scan_ignores_X_witness :
    loopOut (loopAux ⟨false⟩ [] true [] 0 1 ⟨119 :: ([88, 88] ++ 100 :: [5]), [], [], 3⟩) =
      loopOut (loopAux ⟨false⟩ [] true [] 0 1 ⟨100 :: [5], [], [], 3⟩) ∧
    scanForD [88, 88] = none :=
  loopAux_scan_ignores_X ⟨false⟩ [] [] 0 0 119 [88, 88] [5] [] [] 3
    (by decide) (by decide) (by decide)

/-! ### C10 — empty filename list -/

/-- C10: the multi-file reader applied to an empty filename list returns no
columns, no sensor metadata, zero records and zero files, and never consults
the filesystem: the result is identical under any two filesystems. -/
theorem parse_multiple_files_nil (fsys fsys' : String → FileModel)
    (tk cr sm km : List String) (sf rep : Bool) :
    parse_multiple_files fsys [] tk cr sm km sf rep = ⟨[], [], 0, 0⟩ ∧
      parse_multiple_files fsys [] tk cr sm km sf rep =
        parse_multiple_files fsys' [] tk cr sm km sf rep :=
  ⟨rfl, rfl⟩

/-! ### C9 — a code-2 value is always read, kept or not -/

/-- C9: for a sensor whose 2-bit header code is 2 and whose size is one of
1/2/4/8, the decoder consumes exactly `size` bytes from the stream whether or
not the sensor is kept, and for a non-kept sensor the value is discarded: the
columns and the previous-value state are untouched. -/
theorem processSensor_code2_consumes (kb : KnownBytes) (fills : List Val)
    (bits : List Nat) (nRows i : Nat) (s : Sensor) (st : RecState)
    (hcode : codeOf bits i = 2)
    (hsize : s.size = 1 ∨ s.size = 2 ∨ s.size = 4 ∨ s.size = 8)
    (hlen : s.size ≤ st.stream.length) :
    ∃ st', processSensor kb fills bits nRows i s st = .ok st' ∧
      st'.stream = st.stream.drop s.size ∧
      (s.qKeep = false → st'.columns = st.columns ∧ st'.prev = st.prev) := by
  have htk : takeExact s.size st.stream =
      some (st.stream.take s.size, st.stream.drop s.size) := takeExact_of_le hlen
  rcases hsize with h | h | h | h <;>
    rw [h] at htk <;>
    by_cases hk : s.qKeep <;>
      simp [processSensor, hcode, h, outIndex, hk, readUnsigned, htk] <;>
      split <;>
      simp

/-- Witness for C9: a non-kept criteria sensor of size 2 with code 2 consumes
two bytes and stores nothing. -/
theorem processSensor_code2_consumes_witness :
    ∃ st', processSensor ⟨false⟩ [] [160] 0 0 ⟨"t", "u", 2, false, true, -1⟩
        ⟨[1, 2, 3], [[]], [], false⟩ = .ok st' ∧
      st'.stream = [3] ∧
      (false = false → st'.columns = [[]] ∧ st'.prev = []) :=
  processSensor_code2_consumes ⟨false⟩ [] [160] 0 0 ⟨"t", "u", 2, false, true, -1⟩
    ⟨[1, 2, 3], [[]], [], false⟩ (by decide) (by decide) (by decide)

/-! ### C1 and C8 - commit criterion, dropped records, corruption tolerance -/

theorem processSensor_qKeep (kb : KnownBytes) (fills : List Val) (bits : List Nat)
    (nRows i : Nat) (s : Sensor) (st st' : RecState)
    (h : processSensor kb fills bits nRows i s st = .ok st') :
    st'.qKeep = (st.qKeep || (s.qCriteria &&
      (decide (codeOf bits i = 1) || decide (codeOf bits i = 2)))) := by
  unfold processSensor at h
  by_cases h1 : codeOf bits i = 1
  · simp only [h1, if_true, ite_true, reduceIte] at h
    split at h <;> (cases h; simp [h1])
  · by_cases h2 : codeOf bits i = 2
    · simp only [h2, h1, reduceIte] at h
      norm_num at h
      split at h
      · split at h
        · simp at h
        · split at h <;> (cases h; simp [h2])
      · split at h
        · simp at h
        · split at h <;> (cases h; simp [h2])
      · split at h
        · simp at h
        · split at h <;> (cases h; simp [h2])
      · split at h
        · simp at h
        · split at h <;> (cases h; simp [h2])
      · simp at h
    · simp only [h1, h2, reduceIte] at h
      cases h
      simp [h1, h2]



theorem processSensors_qKeep (kb : KnownBytes) (fills : List Val) (bits : List Nat)
    (nRows : Nat) :
    ∀ (ss : List (Nat × Sensor)) (st st' : RecState),
      processSensors kb fills bits nRows ss st = .ok st' →
      st'.qKeep = (st.qKeep || recKeepB bits ss) := by
  intro ss
  induction ss with
  | nil =>
    intro st st' h
    simp only [processSensors] at h
    cases h
    simp [recKeepB]
  | cons p rest ih =>
    obtain ⟨i, s⟩ := p
    intro st st' h
    simp only [processSensors] at h
    cases hps : processSensor kb fills bits nRows i s st with
    | error e => rw [hps] at h; simp at h
    | ok mid =>
      rw [hps] at h
      rw [ih mid st' h, processSensor_qKeep kb fills bits nRows i s st mid hps]
      simp [recKeepB, Bool.or_assoc]

theorem set_oob {α : Type} (l : List α) (n : Nat) (a : α) (h : l.length ≤ n) :
    l.set n a = l := by
  induction l generalizing n with
  | nil => simp
  | cons x xs ih =>
    cases n with
    | zero => simp at h
    | succ k => simp only [List.set]; rw [ih k (by simpa using h)]

theorem growIfNeeded_take {m nRows : Nat} (v : List Val) (fill : Val)
    (hv : m ≤ v.length) :
    (growIfNeeded v nRows fill).take m = v.take m := by
  unfold growIfNeeded
  split
  · exact take_append_left _ _ hv
  · rfl

theorem length_le_growIfNeeded (v : List Val) (nRows : Nat) (fill : Val) :
    v.length ≤ (growIfNeeded v nRows fill).length := by
  unfold growIfNeeded; split <;> simp

theorem setcol_retain {m : Nat} (cols : List (List Val)) (n : Nat)
    (col' : List Val)
    (hlen : ∀ c ∈ cols, m ≤ c.length) (hc' : m ≤ col'.length)
    (htake : col'.take m = (cols.getD n []).take m) :
    (∀ c ∈ cols.set n col', m ≤ c.length) ∧
    (∀ j, ((cols.set n col').getD j []).take m = (cols.getD j []).take m) := by
  constructor
  · intro c hc
    rcases List.mem_or_eq_of_mem_set hc with h | h
    · exact hlen c h
    · rw [h]; exact hc'
  · intro j
    by_cases hj : j = n
    · subst hj
      by_cases hr : j < cols.length
      · have : (cols.set j col').getD j [] = col' := by
          simp [List.getD, List.getElem?_set_self, hr]
        rw [this, htake]
      · rw [set_oob cols j col' (Nat.le_of_not_lt hr)]
    · rw [getD_set_ne cols col' [] hj]



theorem update_retain {m nRows : Nat} (cols : List (List Val)) (n : Nat)
    (fill v : Val) (hm : m ≤ nRows) (hlen : ∀ c ∈ cols, m ≤ c.length) :
    (∀ c ∈ cols.set n ((growIfNeeded (cols.getD n []) nRows fill).set nRows v),
        m ≤ c.length) ∧
    (∀ j, ((cols.set n ((growIfNeeded (cols.getD n []) nRows fill).set nRows v)).getD
        j []).take m = (cols.getD j []).take m) := by
  by_cases hn : n < cols.length
  · have hmem : cols.getD n [] ∈ cols := by
      have : cols.getD n [] = cols[n] := by
        simp [List.getD, List.getElem?_eq_getElem hn]
      rw [this]
      exact List.getElem_mem hn
    have hg : m ≤ (cols.getD n []).length := hlen _ hmem
    refine setcol_retain cols n _ hlen ?_ ?_
    · calc m ≤ (cols.getD n []).length := hg
        _ ≤ (growIfNeeded (cols.getD n []) nRows fill).length :=
          length_le_growIfNeeded _ _ _
        _ = ((growIfNeeded (cols.getD n []) nRows fill).set nRows v).length := by
          simp
    · rw [take_set_le _ _ hm, growIfNeeded_take _ _ hg]
  · rw [set_oob cols n _ (Nat.le_of_not_lt hn)]
    exact ⟨hlen, fun j => rfl⟩

theorem processSensor_retain {m : Nat} (kb : KnownBytes) (fills : List Val)
    (bits : List Nat) (nRows i : Nat) (s : Sensor) (st st' : RecState)
    (h : processSensor kb fills bits nRows i s st = .ok st')
    (hm : m ≤ nRows) (hlen : ∀ c ∈ st.columns, m ≤ c.length) :
    (∀ c ∈ st'.columns, m ≤ c.length) ∧
    (∀ j, (st'.columns.getD j []).take m = (st.columns.getD j []).take m) := by
  unfold processSensor at h
  by_cases h1 : codeOf bits i = 1
  · simp only [h1, reduceIte] at h
    split at h <;> cases h
    · exact ⟨hlen, fun j => rfl⟩
    · exact update_retain st.columns _ _ _ hm hlen
  · by_cases h2 : codeOf bits i = 2
    · simp only [h1, h2, reduceIte] at h
      norm_num at h
      split at h
      · split at h
        · simp at h
        · split at h <;> cases h
          · exact ⟨hlen, fun j => rfl⟩
          · simp only [← List.getD_eq_getElem?_getD]
            exact update_retain st.columns _ _ _ hm hlen
      · split at h
        · simp at h
        · split at h <;> cases h
          · exact ⟨hlen, fun j => rfl⟩
          · simp only [← List.getD_eq_getElem?_getD]
            exact update_retain st.columns _ _ _ hm hlen
      · split at h
        · simp at h
        · split at h <;> cases h
          · exact ⟨hlen, fun j => rfl⟩
          · simp only [← List.getD_eq_getElem?_getD]
            exact update_retain st.columns _ _ _ hm hlen
      · split at h
        · simp at h
        · split at h <;> cases h
          · exact ⟨hlen, fun j => rfl⟩
          · simp only [← List.getD_eq_getElem?_getD]
            exact update_retain st.columns _ _ _ hm hlen
      · simp at h
    · simp only [h1, h2, reduceIte] at h
      cases h
      exact ⟨hlen, fun j => rfl⟩

theorem processSensors_retain {m : Nat} (kb : KnownBytes) (fills : List Val)
    (bits : List Nat) (nRows : Nat) :
    ∀ (ss : List (Nat × Sensor)) (st st' : RecState),
      processSensors kb fills bits nRows ss st = .ok st' →
      m ≤ nRows → (∀ c ∈ st.columns, m ≤ c.length) →
      (∀ c ∈ st'.columns, m ≤ c.length) ∧
      (∀ j, (st'.columns.getD j []).take m = (st.columns.getD j []).take m) := by
  intro ss
  induction ss with
  | nil =>
    intro st st' h hm hlen
    simp only [processSensors] at h
    cases h
    exact ⟨hlen, fun j => rfl⟩
  | cons p rest ih =>
    obtain ⟨i, s⟩ := p
    intro st st' h hm hlen
    simp only [processSensors] at h
    cases hps : processSensor kb fills bits nRows i s st with
    | error e => rw [hps] at h; simp at h
    | ok mid =>
      rw [hps] at h
      obtain ⟨hl1, ht1⟩ := processSensor_retain kb fills bits nRows i s st mid hps hm hlen
      obtain ⟨hl2, ht2⟩ := ih mid st' h hm hl1
      exact ⟨hl2, fun j => (ht2 j).trans (ht1 j)⟩

theorem loopAux_retain (kb : KnownBytes) (sensors : List (Nat × Sensor))
    (qRepair : Bool) (fills : List Val) (nHeader : Nat) {m : Nat} :
    ∀ (fuel : Nat) (st : DecodeState),
      m ≤ st.nRows → (∀ c ∈ st.columns, m ≤ c.length) →
      m ≤ (loopAux kb sensors qRepair fills nHeader fuel st).nRows ∧
      (∀ c ∈ (loopAux kb sensors qRepair fills nHeader fuel st).columns,
        m ≤ c.length) ∧
      (∀ j, ((loopAux kb sensors qRepair fills nHeader fuel st).columns.getD
          j []).take m = (st.columns.getD j []).take m) := by
  intro fuel
  induction fuel with
  | zero => intro st h1 h2; exact ⟨h1, h2, fun j => rfl⟩
  | succ f ih =>
    intro st h1 h2
    rw [loopAux]
    rcases hs : st.stream with _ | ⟨tag, rest⟩
    · exact ⟨h1, h2, fun j => rfl⟩
    · simp only []
      split
      · exact ⟨h1, h2, fun j => rfl⟩
      · split
        · exact ⟨h1, h2, fun j => rfl⟩
        · split
          · exact ⟨h1, h2, fun j => rfl⟩
          · rename_i s1 bits s2 heq
            split
            · exact ⟨h1, h2, fun j => rfl⟩
            · rename_i r hr
              obtain ⟨hl1, ht1⟩ := processSensors_retain kb fills bits st.nRows
                sensors _ r hr h1 h2
              have hnr : m ≤ (if r.qKeep then st.nRows + 1 else st.nRows) := by
                split <;> omega
              obtain ⟨ha, hb, hc⟩ := ih ⟨r.stream, r.columns, r.prev,
                if r.qKeep then st.nRows + 1 else st.nRows⟩ hnr hl1
              exact ⟨ha, hb, fun j => (hc j).trans (ht1 j)⟩



/-- C1 (counterexample): a record whose only code-1/2 sensors lack the
criteria flag is not committed, yet processing it changes the per-column
previous-value state (fill to 5 here); and the dropped record's scratch-row
write is visible in later committed output: the same stream with a different
value byte inside the dropped record yields different committed columns. -/
theorem c1_counterexample :
    (processSensors ⟨false⟩ [.i8 FILL_INT8] [128] 0 [(0, sKeepOnly)]
        ⟨[5], [[Val.i8 FILL_INT8]], [.i8 FILL_INT8], false⟩ =
      .ok ⟨[], [[Val.i8 5]], [.i8 5], false⟩) ∧
    ([Val.i8 5] ≠ [Val.i8 FILL_INT8]) ∧
    (read_columns [100, 128, 7, 100, 32, 1, 88] ⟨false⟩ [sKeepOnly, sCritOnly]
        false 0).n_records = 1 ∧
    (read_columns [100, 128, 7, 100, 32, 1, 88] ⟨false⟩ [sKeepOnly, sCritOnly]
        false 0).columns ≠
      (read_columns [100, 128, 9, 100, 32, 1, 88] ⟨false⟩ [sKeepOnly, sCritOnly]
        false 0).columns :=
  ⟨by decide, by decide, by decide, by decide⟩

/-- C1 (amended): a record that decodes without error is committed — the row
count goes from `n` to `n + 1` — exactly when some sensor with the criteria
flag has code 1 or 2 in it; a record that is not committed leaves the row
count and the already committed rows (the first `n` entries of every column)
unchanged. (As the counterexample shows, the previous-value state and the
scratch row of a dropped record may still change, which the original claim
ruled out.) -/
theorem loopAux_commit_iff (kb : KnownBytes) (sensors : List (Nat × Sensor))
    (qRepair : Bool) (fills : List Val) (nHeader : Nat) (s bits s2 : List Nat)
    (cols : List (List Val)) (prev : List Val) (n : Nat) (r : RecState)
    (hbits : takeExact nHeader s = some (bits, s2))
    (hrec : processSensors kb fills bits n sensors ⟨s2, cols, prev, false⟩ = .ok r)
    (hwf : ∀ c ∈ cols, n ≤ c.length) :
    ((loopAux kb sensors qRepair fills nHeader 1 ⟨100 :: s, cols, prev, n⟩).nRows
        = n + 1 ↔ recKeepB bits sensors = true) ∧
    (recKeepB bits sensors = true ↔ ∃ p ∈ sensors, p.2.qCriteria = true ∧
      (codeOf bits p.1 = 1 ∨ codeOf bits p.1 = 2)) ∧
    (recKeepB bits sensors = false →
      (loopAux kb sensors qRepair fills nHeader 1 ⟨100 :: s, cols, prev, n⟩).nRows
          = n ∧
      ∀ j, ((loopAux kb sensors qRepair fills nHeader 1
          ⟨100 :: s, cols, prev, n⟩).columns.getD j []).take n =
        (cols.getD j []).take n) := by
  have hq := processSensors_qKeep kb fills bits n sensors _ r hrec
  simp only [Bool.false_or] at hq
  have hstep : loopAux kb sensors qRepair fills nHeader 1 ⟨100 :: s, cols, prev, n⟩ =
      ⟨r.stream, r.columns, r.prev, if r.qKeep then n + 1 else n⟩ := by
    rw [loopAux]
    simp [hbits, hrec]
    rw [loopAux]
  refine ⟨?_, ?_, ?_⟩
  · rw [hstep, ← hq]
    cases hrk : r.qKeep <;> simp [hrk]
  · simp [recKeepB, List.any_eq_true, Bool.and_eq_true, Bool.or_eq_true,
      decide_eq_true_iff]
  · intro h0
    rw [hq, h0] at hstep
    simp at hstep
    obtain ⟨_, ht⟩ := processSensors_retain kb fills bits n sensors
      ⟨s2, cols, prev, false⟩ r hrec (Nat.le_refl n) hwf
    rw [hstep]
    exact ⟨rfl, fun j => ht j⟩



theorem loopAux_commit_iff_witness :
    ((loopAux ⟨false⟩ [(0, sKeepOnly)] false [.i8 FILL_INT8] 1 1
        ⟨100 :: [128, 5], [[Val.i8 FILL_INT8]], [.i8 FILL_INT8], 0⟩).nRows = 0 + 1 ↔
      recKeepB [128] [(0, sKeepOnly)] = true) ∧
    (recKeepB [128] [(0, sKeepOnly)] = true ↔ ∃ p ∈ [(0, sKeepOnly)],
      p.2.qCriteria = true ∧ (codeOf [128] p.1 = 1 ∨ codeOf [128] p.1 = 2)) ∧
    (recKeepB [128] [(0, sKeepOnly)] = false →
      (loopAux ⟨false⟩ [(0, sKeepOnly)] false [.i8 FILL_INT8] 1 1
          ⟨100 :: [128, 5], [[Val.i8 FILL_INT8]], [.i8 FILL_INT8], 0⟩).nRows = 0 ∧
      ∀ j, ((loopAux ⟨false⟩ [(0, sKeepOnly)] false [.i8 FILL_INT8] 1 1
          ⟨100 :: [128, 5], [[Val.i8 FILL_INT8]], [.i8 FILL_INT8], 0⟩).columns.getD
            j []).take 0 = ([[Val.i8 FILL_INT8]].getD j []).take 0) :=
  loopAux_commit_iff ⟨false⟩ [(0, sKeepOnly)] false [.i8 FILL_INT8] 1 [128, 5]
    [128] [5] [[Val.i8 FILL_INT8]] [.i8 FILL_INT8] 0
    ⟨[], [[Val.i8 5]], [.i8 5], false⟩ (by decide) (by decide) (by decide)

theorem listResize_length (v : List Val) (n : Nat) (z : Val) :
    (listResize v n z).length = n := by
  simp [listResize]

/-- C8: corruption tolerance of `read_columns`: (i) continuing the record
loop from any state only adds rows — the committed row count never decreases
and the first `nRows` entries of every column are never modified afterwards;
(ii) when reading the next record fails (short read of the header bits would
stop the loop; shown here: a failure inside the sensor loop, i.e. a short
value read or the unknown-size exception), the loop returns the current state
unchanged — the partially-read record is discarded and, the loop being a total
function, no exception escapes; (iii) in the returned result every column is
trimmed to exactly the committed record count. -/
theorem read_columns_error_tolerance (kb : KnownBytes)
    (sensors : List (Nat × Sensor)) (qRepair : Bool) (fills : List Val)
    (nHeader : Nat) :
    (∀ (fuel : Nat) (σ : DecodeState), (∀ c ∈ σ.columns, σ.nRows ≤ c.length) →
      σ.nRows ≤ (loopAux kb sensors qRepair fills nHeader fuel σ).nRows ∧
      ∀ j, ((loopAux kb sensors qRepair fills nHeader fuel σ).columns.getD
          j []).take σ.nRows = (σ.columns.getD j []).take σ.nRows) ∧
    (∀ (fuel : Nat) (σ : DecodeState) (s bits s2 : List Nat) (e : DecodeErr),
      σ.stream = 100 :: s → takeExact nHeader s = some (bits, s2) →
      processSensors kb fills bits σ.nRows sensors ⟨s2, σ.columns, σ.prev, false⟩
        = .error e →
      loopAux kb sensors qRepair fills nHeader (fuel + 1) σ = σ) ∧
    (∀ (stream : List Nat) (kb2 : KnownBytes) (ss : List Sensor) (rep : Bool)
      (nB : Nat), ∀ c ∈ (read_columns stream kb2 ss rep nB).columns,
      c.length = (read_columns stream kb2 ss rep nB).n_records) := by
  refine ⟨?_, ?_, ?_⟩
  · intro fuel σ hwf
    obtain ⟨h1, _, h3⟩ := loopAux_retain kb sensors qRepair fills nHeader fuel σ
      (Nat.le_refl _) hwf
    exact ⟨h1, h3⟩
  · intro fuel σ s bits s2 e hσ hbits hfail
    rw [loopAux, hσ]
    simp [hbits, hfail]
  · intro stream kb2 ss rep nB c hc
    simp only [read_columns] at hc ⊢
    obtain ⟨p, hp, hpe⟩ := List.mem_map.mp hc
    rw [← hpe]
    exact listResize_length _ _ _

theorem read_columns_error_tolerance_witness :
    ((1 : Nat) ≤ (loopAux ⟨false⟩ [(0, ⟨"w", "u", 3, true, true, 0⟩)] false
        [.f64 QNAN64] 1 1 ⟨[88], [[Val.i8 5]], [.i8 5], 1⟩).nRows ∧
      ∀ j, ((loopAux ⟨false⟩ [(0, ⟨"w", "u", 3, true, true, 0⟩)] false
          [.f64 QNAN64] 1 1 ⟨[88], [[Val.i8 5]], [.i8 5], 1⟩).columns.getD
            j []).take 1 = ([[Val.i8 5]].getD j []).take 1) ∧
    (loopAux ⟨false⟩ [(0, ⟨"w", "u", 3, true, true, 0⟩)] false [.f64 QNAN64] 1
        (0 + 1) ⟨100 :: [128], [[]], [], 0⟩ = ⟨100 :: [128], [[]], [], 0⟩) ∧
    (([] : List Val).length = (read_columns [88] ⟨false⟩ [sKeepOnly] false 0).n_records) := by
  refine ⟨?_, ?_, ?_⟩
  · exact (read_columns_error_tolerance ⟨false⟩ [(0, ⟨"w", "u", 3, true, true, 0⟩)]
      false [.f64 QNAN64] 1).1 1 ⟨[88], [[Val.i8 5]], [.i8 5], 1⟩ (by decide)
  · exact (read_columns_error_tolerance ⟨false⟩ [(0, ⟨"w", "u", 3, true, true, 0⟩)]
      false [.f64 QNAN64] 1).2.1 0 ⟨100 :: [128], [[]], [], 0⟩ [128] [128] [] 
      (.unknownSize 3 "w") rfl (by decide) (by decide)
  · exact (read_columns_error_tolerance ⟨false⟩ [(0, ⟨"w", "u", 3, true, true, 0⟩)]
      false [.f64 QNAN64] 1).2.2 [88] ⟨false⟩ [sKeepOnly] false 0 [] (by decide)

/-! ### C2 and C3 - the skip-first policy and the pass-2 line skip -/

theorem length_pos_eq_not_isEmpty (acc : List ColumnDataResult) :
    (decide (0 < acc.length)) = !acc.isEmpty := by
  cases acc <;> simp

theorem pass2_allData (union : List Sensor) (sf rep : Bool) :
    ∀ (fs : List (String × FileModel)) (acc : List ColumnDataResult) (t : Nat),
      (pass2 union sf rep fs ⟨acc, t⟩).allData = acc ++ parsedResults union rep fs := by
  intro fs
  induction fs with
  | nil => intro acc t; simp [pass2, parsedResults]
  | cons p rest ih =>
    obtain ⟨fn, fm⟩ := p
    intro acc t
    simp only [pass2, parsedResults]
    cases h1 : fm.openOk
    · simp [ih]
    · cases h2 : fm.headerOk
      · simp [ih]
      · simp only [Bool.not_true, Bool.false_eq_true, if_false]
        cases hk : knownBytes (if !fm.factored then skipLines fm.nSensors fm.afterHeader
            else fm.afterHeader) with
        | error e => simp [hk, ih]
        | ok p2 =>
          obtain ⟨kb, s1⟩ := p2
          simp [hk, ih, List.append_assoc]

theorem pass2_total (union : List Sensor) (sf rep : Bool) :
    ∀ (fs : List (String × FileModel)) (acc : List ColumnDataResult) (t : Nat),
      (pass2 union sf rep fs ⟨acc, t⟩).total =
        t + sumContrib sf acc.length (parsedResults union rep fs) := by
  intro fs
  induction fs with
  | nil => intro acc t; simp [pass2, parsedResults, sumContrib]
  | cons p rest ih =>
    obtain ⟨fn, fm⟩ := p
    intro acc t
    simp only [pass2, parsedResults]
    cases h1 : fm.openOk
    · simp [ih]
    · cases h2 : fm.headerOk
      · simp [ih]
      · simp only [Bool.not_true, Bool.false_eq_true, if_false]
        cases hk : knownBytes (if !fm.factored then skipLines fm.nSensors fm.afterHeader
            else fm.afterHeader) with
        | error e => simp [hk, ih]
        | ok p2 =>
          obtain ⟨kb, s1⟩ := p2
          simp only [hk, ih]
          simp [sumContrib, contribution, ← length_pos_eq_not_isEmpty]
          omega



/-- C2 (amended): in pass 2, the decoded per-file results are accumulated in
parse order, and the total contributed record count charges each file by its
parse position: the file in the first parse slot keeps all its records — even
when it has zero records — while every later parsed file with at least one
record is charged one less when `skip_first_record` is on. Which file sits in
the first slot is thus decided by parse success alone, so a parsed file with
zero records does shift later files out of the first slot (this is where the
original claim fails). -/
theorem pass2_skip_first_by_parse_position (union : List Sensor)
    (sf rep : Bool) (fs : List (String × FileModel)) :
    (pass2 union sf rep fs ⟨[], 0⟩).allData = parsedResults union rep fs ∧
    (pass2 union sf rep fs ⟨[], 0⟩).total =
      sumContrib sf 0 (parsedResults union rep fs) :=
  ⟨by simpa using pass2_allData union sf rep fs [] 0,
   by simpa using pass2_total union sf rep fs [] 0⟩

/-- C2 (counterexample): under fsAB, file "a" parses cleanly with zero records
and file "b" carries two records (values 5 and 7). With `skip_first_record`
on, the claim predicts "b" — the first file contributing at least one record —
keeps both rows; the merge instead returns one record (the 5 is dropped),
because the zero-record file already occupies the first parse slot. Reading
["b"] alone confirms both records survive when "b" is genuinely first. -/
theorem c2_counterexample :
    (parse_multiple_files fsAB ["a", "b"] [] [] [] [] true false).n_records = 1 ∧
    (parse_multiple_files fsAB ["a", "b"] [] [] [] [] true false).columns =
      [[.i8 7]] ∧
    (parse_multiple_files fsAB ["b"] [] [] [] [] true false).n_records = 2 :=
  ⟨by decide, by decide, by decide⟩

theorem skipLine_append (l rest : List Nat) (h : 10 ∉ l) :
    skipLine (l ++ 10 :: rest) = rest := by
  induction l with
  | nil => simp [skipLine]
  | cons c cs ih =>
    have hc : c ≠ 10 := fun hc => h (hc ▸ List.mem_cons_self c cs)
    have hcs : 10 ∉ cs := fun hm => h (List.mem_cons_of_mem c hm)
    simp [skipLine, hc, ih hcs]

theorem skipLines_flatten (ls : List (List Nat)) (rest : List Nat)
    (h : ∀ l ∈ ls, 10 ∉ l) :
    skipLines ls.length ((ls.map (fun l => l ++ [10])).flatten ++ rest) = rest := by
  induction ls with
  | nil => simp [skipLines]
  | cons l ls ih =>
    have hl : 10 ∉ l := h l (List.mem_cons_self l ls)
    have hls : ∀ x ∈ ls, 10 ∉ x := fun x hx => h x (List.mem_cons_of_mem l hx)
    simp only [List.map_cons, List.flatten_cons, List.length_cons, skipLines]
    rw [show l ++ [10] ++ (ls.map (fun x => x ++ [10])).flatten ++ rest =
      l ++ 10 :: ((ls.map (fun x => x ++ [10])).flatten ++ rest) by simp]
    rw [skipLine_append _ _ hl]
    exact ih hls

/-- C3: in pass 2, for an unfactored file whose after-header stream consists
of exactly `n_sensors` newline-terminated sensor lines followed by `rest`, the
stream handed to the known-bytes probe is exactly `rest`: precisely
`n_sensors` lines are skipped, so decoding starts at the known-bytes block.
For a factored file no lines are skipped and the stream is passed unchanged. -/
theorem pass2_line_skip (fm : FileModel) (ls : List (List Nat)) (rest : List Nat)
    (hn : fm.nSensors = ls.length)
    (hlines : ∀ l ∈ ls, 10 ∉ l)
    (hstream : fm.afterHeader = (ls.map (fun l => l ++ [10])).flatten ++ rest) :
    (if !fm.factored then skipLines fm.nSensors fm.afterHeader
     else fm.afterHeader) =
      if fm.factored then fm.afterHeader else rest := by
  cases hf : fm.factored
  · simp only [hf, Bool.not_false, if_pos, if_neg, Bool.false_eq_true, if_false]
    rw [hn, hstream]
    exact skipLines_flatten ls rest hlines
  · simp [hf]

/-- Witness for C3: one sensor line of one byte, then the known-bytes block. -/
theorem pass2_line_skip_witness :
    (if !(FileModel.factored ⟨true, true, "m", false, 1, "c3", [⟨"a", "u", 1⟩],
        [115, 10] ++ (kbBlock ++ [88])⟩) then
      skipLines 1 ([115, 10] ++ (kbBlock ++ [88]))
     else [115, 10] ++ (kbBlock ++ [88])) =
      if FileModel.factored ⟨true, true, "m", false, 1, "c3", [⟨"a", "u", 1⟩],
          [115, 10] ++ (kbBlock ++ [88])⟩ then
        [115, 10] ++ (kbBlock ++ [88])
      else kbBlock ++ [88] :=
  pass2_line_skip ⟨true, true, "m", false, 1, "c3", [⟨"a", "u", 1⟩],
      [115, 10] ++ (kbBlock ++ [88])⟩ [[115]] (kbBlock ++ [88])
    (by decide) (by decide) (by decide)

/-! ### C5 - per-file errors are silent skips -/

/-- C5 (counterexample): under fsBad, file "a" passes pass 1 (its header is
fine) but its known-bytes probe raises FormatError in pass 2 — an error that
is neither an open failure, an empty header nor a mission exclusion. The
claim says such an error aborts the merge; instead the merge completes
normally, silently skipping that file's data while still counting it in
n_files. -/
theorem c5_counterexample :
    knownBytes fileBad.afterHeader = .error () ∧
    parse_multiple_files fsBad ["a", "b"] [] [] [] [] true false =
      ⟨[[.i8 5, .i8 7]], [⟨"a", "u", 1⟩], 2, 2⟩ :=
  ⟨by decide, by decide⟩

/-- C5 (amended): every per-file failure is a silent skip, in both passes, and
no per-file error aborts the merge (the merger is a total function). Pass 1
drops a file that fails to open, has an empty header, is mission-filtered out,
or whose roster insertion raises (the FormatError for a size-mismatched
sensor); pass 2 additionally drops a file whose known-bytes probe raises
FormatError — the catch around the per-file body swallows it, against the
original claim that only open/header/mission failures are skipped. -/
theorem per_file_errors_skip (skipM keepM : List String) (m : SMap)
    (acc : List (String × FileModel)) (union : List Sensor) (sf rep : Bool)
    (out : Pass2Out) (fn : String) (fm : FileModel)
    (l2 : List (String × FileModel)) :
    (fm.openOk = false ∨ fm.headerOk = false ∨
        qProcessMission fm.mission skipM keepM = false ∨
        (∃ e, smapInsert m fm.crc fm.roster = .error e) →
      pass1 skipM keepM ((fn, fm) :: l2) m acc = pass1 skipM keepM l2 m acc) ∧
    (fm.openOk = false ∨ fm.headerOk = false ∨
        (∃ e, knownBytes (if !fm.factored then skipLines fm.nSensors fm.afterHeader
          else fm.afterHeader) = .error e) →
      pass2 union sf rep ((fn, fm) :: l2) out = pass2 union sf rep l2 out) := by
  constructor
  · rintro (h | h | h | ⟨e, h⟩) <;> simp [pass1, h]
  · rintro (h | h | ⟨e, h⟩)
    · simp [pass2, h]
    · simp [pass2, h]
    · simp only [Bool.not_eq_true'] at h ⊢
      simp [pass2, h]

/-- Witness for C5: a mission-filtered file is skipped by pass 1, and the
invalid-known-bytes file is skipped by pass 2. -/
theorem per_file_errors_skip_witness :
    pass1 ["m"] [] [("a", fileBad)] ⟨[], []⟩ [] = pass1 ["m"] [] [] ⟨[], []⟩ [] ∧
    pass2 [] true false [("a", fileBad)] ⟨[], 0⟩ = pass2 [] true false [] ⟨[], 0⟩ :=
  ⟨(per_file_errors_skip ["m"] [] ⟨[], []⟩ [] [] true false ⟨[], 0⟩ "a" fileBad []).1
      (Or.inr (Or.inr (Or.inl (by decide)))),
   (per_file_errors_skip ["m"] [] ⟨[], []⟩ [] [] true false ⟨[], 0⟩ "a" fileBad []).2
      (Or.inr (Or.inr ⟨(), by decide⟩))⟩

/-! ### C4 - union columns are sentinel-filled where no file writes -/

theorem foldl_set_length (f : Nat → Nat) (g : Nat → Val) (l : List Nat) :
    ∀ dst : List Val,
      (l.foldl (fun d r => d.set (f r) (g r)) dst).length = dst.length := by
  induction l with
  | nil => intro dst; rfl
  | cons x xs ih => intro dst; simp only [List.foldl]; rw [ih]; simp

theorem foldl_set_getD_ne (f : Nat → Nat) (g : Nat → Val) (r : Nat) (d : Val) :
    ∀ (l : List Nat), (∀ x ∈ l, r ≠ f x) →
      ∀ dst : List Val,
        (l.foldl (fun (d' : List Val) x => d'.set (f x) (g x)) dst).getD r d =
          dst.getD r d := by
  intro l
  induction l with
  | nil => intro _ dst; rfl
  | cons x xs ih =>
    intro h dst
    simp only [List.foldl]
    rw [ih (fun y hy => h y (List.mem_cons_of_mem x hy))]
    exact getD_set_ne dst (g x) d (h x (List.mem_cons_self x xs))

theorem writeRows_length (dst : List Val) (offset : Nat) (src : List Val)
    (start n : Nat) : (writeRows dst offset src start n).length = dst.length :=
  foldl_set_length (fun r => offset + r) (fun r => src.getD (start + r) (.i8 0))
    (List.range n) dst

theorem writeRows_getD_outside (dst : List Val) (offset : Nat) (src : List Val)
    (start n r : Nat) (d : Val) (h : r < offset ∨ offset + n ≤ r) :
    (writeRows dst offset src start n).getD r d = dst.getD r d :=
  foldl_set_getD_ne (fun x => offset + x) (fun x => src.getD (start + x) (.i8 0))
    r d (List.range n)
    (fun x hx => by
      have := List.mem_range.mp hx
      show r ≠ offset + x
      omega) dst



theorem copy_fold_cell (look : Nat → Option Nat) (offset start n j r : Nat)
    (d : Val) :
    ∀ (ps : List (Nat × List Val)),
      ((∀ p ∈ ps, look p.1 ≠ some j) ∨ r < offset ∨ offset + n ≤ r) →
      ∀ cols : List (List Val),
        ((ps.foldl (fun (cs : List (List Val)) p =>
            match look p.1 with
            | none => cs
            | some ui => cs.set ui (writeRows (cs.getD ui []) offset p.2 start n))
          cols).getD j []).getD r d = (cols.getD j []).getD r d := by
  intro ps
  induction ps with
  | nil => intro _ cols; rfl
  | cons p ps ih =>
    intro h cols
    have hps : (∀ q ∈ ps, look q.1 ≠ some j) ∨ r < offset ∨ offset + n ≤ r := by
      rcases h with h | h | h
      · exact Or.inl (fun q hq => h q (List.mem_cons_of_mem p hq))
      · exact Or.inr (Or.inl h)
      · exact Or.inr (Or.inr h)
    simp only [List.foldl]
    cases hl : look p.1 with
    | none => exact ih hps cols
    | some ui =>
      dsimp only []
      rw [ih hps]
      by_cases hj : ui = j
      · subst hj
        rcases h with h | h | h
        · exact absurd hl (h p (List.mem_cons_self p ps))
        · by_cases hin : ui < cols.length
          · have hset : (cols.set ui (writeRows (cols.getD ui []) offset p.2
                start n)).getD ui [] =
                writeRows (cols.getD ui []) offset p.2 start n := by
              simp [List.getD, List.getElem?_set_self, hin]
            rw [hset, writeRows_getD_outside _ _ _ _ _ _ _ (Or.inl h)]
          · rw [set_oob _ _ _ (Nat.le_of_not_lt hin)]
        · by_cases hin : ui < cols.length
          · have hset : (cols.set ui (writeRows (cols.getD ui []) offset p.2
                start n)).getD ui [] =
                writeRows (cols.getD ui []) offset p.2 start n := by
              simp [List.getD, List.getElem?_set_self, hin]
            rw [hset, writeRows_getD_outside _ _ _ _ _ _ _ (Or.inr h)]
          · rw [set_oob _ _ _ (Nat.le_of_not_lt hin)]
      · rw [getD_set_ne _ _ _ (fun hh => hj hh.symm)]

theorem copy_fold_len (look : Nat → Option Nat) (offset start n : Nat) :
    ∀ (ps : List (Nat × List Val)) (cols : List (List Val)),
      (ps.foldl (fun (cs : List (List Val)) p =>
          match look p.1 with
          | none => cs
          | some ui => cs.set ui (writeRows (cs.getD ui []) offset p.2 start n))
        cols).length = cols.length ∧
      ∀ j, ((ps.foldl (fun (cs : List (List Val)) p =>
          match look p.1 with
          | none => cs
          | some ui => cs.set ui (writeRows (cs.getD ui []) offset p.2 start n))
        cols).getD j []).length = (cols.getD j []).length := by
  intro ps
  induction ps with
  | nil => intro cols; exact ⟨rfl, fun j => rfl⟩
  | cons p ps ih =>
    intro cols
    simp only [List.foldl]
    cases hl : look p.1 with
    | none => exact ih cols
    | some ui =>
      dsimp only []
      obtain ⟨ha, hb⟩ := ih (cols.set ui (writeRows (cols.getD ui []) offset p.2
        start n))
      refine ⟨by rw [ha]; simp, fun j => ?_⟩
      rw [hb j]
      by_cases hj : j = ui
      · subst hj
        by_cases hin : j < cols.length
        · have hset : (cols.set j (writeRows (cols.getD j []) offset p.2
              start n)).getD j [] =
              writeRows (cols.getD j []) offset p.2 start n := by
            simp [List.getD, List.getElem?_set_self, hin]
          rw [hset, writeRows_length]
        · rw [set_oob _ _ _ (Nat.le_of_not_lt hin)]
      · rw [getD_set_ne _ _ _ hj]

theorem copyFile_cell (uI : List SensorInfo) (fd : ColumnDataResult)
    (offset start n j r : Nat) (d : Val)
    (h : writesCol uI fd j = false ∨ r < offset ∨ offset + n ≤ r)
    (cols : List (List Val)) :
    ((copyFile uI fd offset start n cols).getD j []).getD r d =
      (cols.getD j []).getD r d := by
  unfold copyFile
  refine copy_fold_cell
    (fun ci => unionNameIdx uI (fd.sensor_info.getD ci default).name)
    offset start n j r d fd.columns.enum ?_ cols
  rcases h with h | h | h
  · left
    intro p hp
    have := List.any_eq_false.mp h p hp
    simpa using this
  · exact Or.inr (Or.inl h)
  · exact Or.inr (Or.inr h)

theorem copyFile_len (uI : List SensorInfo) (fd : ColumnDataResult)
    (offset start n : Nat) (cols : List (List Val)) :
    (copyFile uI fd offset start n cols).length = cols.length ∧
    ∀ j, ((copyFile uI fd offset start n cols).getD j []).length =
      (cols.getD j []).length := by
  unfold copyFile
  exact copy_fold_len
    (fun ci => unionNameIdx uI (fd.sensor_info.getD ci default).name)
    offset start n fd.columns.enum cols



theorem copyAll_cell (uI : List SensorInfo) (sf : Bool) :
    ∀ (fds : List ColumnDataResult) (fi offset j r : Nat) (d : Val)
      (cols : List (List Val)),
      rowWritten uI sf fds fi offset j r = false →
      ((copyAll uI sf fds fi offset cols).getD j []).getD r d =
        (cols.getD j []).getD r d := by
  intro fds
  induction fds with
  | nil => intro fi offset j r d cols _; rfl
  | cons fd fds ih =>
    intro fi offset j r d cols hrw
    simp only [copyAll, rowWritten] at hrw ⊢
    by_cases hc : (sf && decide (fi > 0) && decide (fd.n_records > 0)) = true
    · rw [if_pos hc] at hrw ⊢
      by_cases hn : fd.n_records - 1 = 0
      · rw [if_pos hn] at hrw ⊢
        exact ih _ _ _ _ _ _ hrw
      · rw [if_neg hn] at hrw ⊢
        rw [Bool.or_eq_false_iff] at hrw
        rw [ih _ _ _ _ _ _ hrw.2]
        apply copyFile_cell
        have h1 := hrw.1
        simp only [Bool.and_eq_false_iff, decide_eq_false_iff_not] at h1
        rcases h1 with (h | h) | h
        · exact Or.inl h
        · exact Or.inr (Or.inl (by omega))
        · exact Or.inr (Or.inr (by omega))
    · rw [if_neg hc] at hrw ⊢
      by_cases hn : fd.n_records - 0 = 0
      · rw [if_pos hn] at hrw ⊢
        exact ih _ _ _ _ _ _ hrw
      · rw [if_neg hn] at hrw ⊢
        rw [Bool.or_eq_false_iff] at hrw
        rw [ih _ _ _ _ _ _ hrw.2]
        apply copyFile_cell
        have h1 := hrw.1
        simp only [Bool.and_eq_false_iff, decide_eq_false_iff_not] at h1
        rcases h1 with (h | h) | h
        · exact Or.inl h
        · exact Or.inr (Or.inl (by omega))
        · exact Or.inr (Or.inr (by omega))

theorem copyAll_len (uI : List SensorInfo) (sf : Bool) :
    ∀ (fds : List ColumnDataResult) (fi offset : Nat) (cols : List (List Val)),
      (copyAll uI sf fds fi offset cols).length = cols.length ∧
      ∀ j, ((copyAll uI sf fds fi offset cols).getD j []).length =
        (cols.getD j []).length := by
  intro fds
  induction fds with
  | nil => intro fi offset cols; exact ⟨rfl, fun j => rfl⟩
  | cons fd fds ih =>
    intro fi offset cols
    simp only [copyAll]
    by_cases hc : (sf && decide (fi > 0) && decide (fd.n_records > 0)) = true
    · rw [if_pos hc]
      by_cases hn : fd.n_records - 1 = 0
      · rw [if_pos hn]
        exact ih _ _ cols
      · rw [if_neg hn]
        obtain ⟨ha, hb⟩ := ih (fi + 1) (offset + (fd.n_records - 1))
          (copyFile uI fd offset 1 (fd.n_records - 1) cols)
        obtain ⟨hc2, hd⟩ := copyFile_len uI fd offset 1 (fd.n_records - 1) cols
        exact ⟨ha.trans hc2, fun j => (hb j).trans (hd j)⟩
    · rw [if_neg hc]
      by_cases hn : fd.n_records - 0 = 0
      · rw [if_pos hn]
        exact ih _ _ cols
      · rw [if_neg hn]
        obtain ⟨ha, hb⟩ := ih (fi + 1) (offset + (fd.n_records - 0))
          (copyFile uI fd offset 0 (fd.n_records - 0) cols)
        obtain ⟨hc2, hd⟩ := copyFile_len uI fd offset 0 (fd.n_records - 0) cols
        exact ⟨ha.trans hc2, fun j => (hb j).trans (hd j)⟩

theorem alloc_length (uI : List SensorInfo) (total : Nat) :
    (allocUnionColumns uI total).length = uI.length := by
  simp [allocUnionColumns]

theorem alloc_getD (uI : List SensorInfo) (total j : Nat) (hj : j < uI.length) :
    (allocUnionColumns uI total).getD j [] =
      List.replicate total (fillVal ((uI.getD j default).size)) := by
  simp only [allocUnionColumns]
  rw [List.getD_eq_getElem?_getD, List.getElem?_map, List.getElem?_eq_getElem hj]
  rw [List.getD_eq_getElem?_getD, List.getElem?_eq_getElem hj]
  rfl



/-- C4: in the multi-file reader, every union column is allocated at the total
record count pre-filled with its type's fill sentinel (-127 for int8, -32768
for int16, quiet NaN for float32/float64), and every union row position that
the copy loop never writes still holds exactly that sentinel in the returned
result; every returned column has length equal to the returned record
count. -/
theorem parse_multiple_files_fill (fsys : String → FileModel)
    (filenames tk cr sm km : List String) (sf rep : Bool) (j r : Nat)
    (hne : filenames.isEmpty = false)
    (hv : (pass1Of fsys filenames sm km).2.isEmpty = false)
    (hj : j < (buildUnionInfo (unionSensors (pass1Of fsys filenames sm km).1
      tk cr)).length)
    (hr : r < (parse_multiple_files fsys filenames tk cr sm km sf rep).n_records)
    (hnw : rowWritten (buildUnionInfo (unionSensors
        (pass1Of fsys filenames sm km).1 tk cr)) sf
      (parsedResults (unionSensors (pass1Of fsys filenames sm km).1 tk cr) rep
        (pass1Of fsys filenames sm km).2) 0 0 j r = false) :
    (∀ c ∈ (parse_multiple_files fsys filenames tk cr sm km sf rep).columns,
      c.length = (parse_multiple_files fsys filenames tk cr sm km sf rep).n_records) ∧
    ((parse_multiple_files fsys filenames tk cr sm km sf rep).columns.getD
        j []).getD r (.i8 0) =
      fillVal (((parse_multiple_files fsys filenames tk cr sm km sf rep).sensor_info.getD
        j default).size) := by
  have hR : parse_multiple_files fsys filenames tk cr sm km sf rep =
      ⟨copyAll (buildUnionInfo (unionSensors (pass1Of fsys filenames sm km).1 tk cr))
          sf (pass2 (unionSensors (pass1Of fsys filenames sm km).1 tk cr) sf rep
            (pass1Of fsys filenames sm km).2 ⟨[], 0⟩).allData 0 0
          (allocUnionColumns
            (buildUnionInfo (unionSensors (pass1Of fsys filenames sm km).1 tk cr))
            (pass2 (unionSensors (pass1Of fsys filenames sm km).1 tk cr) sf rep
              (pass1Of fsys filenames sm km).2 ⟨[], 0⟩).total),
       buildUnionInfo (unionSensors (pass1Of fsys filenames sm km).1 tk cr),
       (pass2 (unionSensors (pass1Of fsys filenames sm km).1 tk cr) sf rep
         (pass1Of fsys filenames sm km).2 ⟨[], 0⟩).total,
       (pass1Of fsys filenames sm km).2.length⟩ := by
    simp only [parse_multiple_files, hne, hv]
    rfl
  rw [hR] at hr ⊢
  simp only [] at hr ⊢
  have hAD : (pass2 (unionSensors (pass1Of fsys filenames sm km).1 tk cr) sf rep
      (pass1Of fsys filenames sm km).2 ⟨[], 0⟩).allData =
      parsedResults (unionSensors (pass1Of fsys filenames sm km).1 tk cr) rep
        (pass1Of fsys filenames sm km).2 := by
    simpa using pass2_allData (unionSensors (pass1Of fsys filenames sm km).1 tk cr)
      sf rep (pass1Of fsys filenames sm km).2 [] 0
  constructor
  · intro c hc
    obtain ⟨hlen1, hlen2⟩ := copyAll_len
      (buildUnionInfo (unionSensors (pass1Of fsys filenames sm km).1 tk cr)) sf
      (pass2 (unionSensors (pass1Of fsys filenames sm km).1 tk cr) sf rep
        (pass1Of fsys filenames sm km).2 ⟨[], 0⟩).allData 0 0
      (allocUnionColumns
        (buildUnionInfo (unionSensors (pass1Of fsys filenames sm km).1 tk cr))
        (pass2 (unionSensors (pass1Of fsys filenames sm km).1 tk cr) sf rep
          (pass1Of fsys filenames sm km).2 ⟨[], 0⟩).total)
    obtain ⟨i, hi, rfl⟩ := List.mem_iff_getElem.mp hc
    have hiu : i < (buildUnionInfo (unionSensors
        (pass1Of fsys filenames sm km).1 tk cr)).length := by
      rw [← alloc_length (buildUnionInfo (unionSensors
        (pass1Of fsys filenames sm km).1 tk cr))
        (pass2 (unionSensors (pass1Of fsys filenames sm km).1 tk cr) sf rep
          (pass1Of fsys filenames sm km).2 ⟨[], 0⟩).total, ← hlen1]
      exact hi
    have hgd : (copyAll (buildUnionInfo (unionSensors
        (pass1Of fsys filenames sm km).1 tk cr)) sf
        (pass2 (unionSensors (pass1Of fsys filenames sm km).1 tk cr) sf rep
          (pass1Of fsys filenames sm km).2 ⟨[], 0⟩).allData 0 0
        (allocUnionColumns
          (buildUnionInfo (unionSensors (pass1Of fsys filenames sm km).1 tk cr))
          (pass2 (unionSensors (pass1Of fsys filenames sm km).1 tk cr) sf rep
            (pass1Of fsys filenames sm km).2 ⟨[], 0⟩).total)).getD i [] =
        (copyAll (buildUnionInfo (unionSensors
        (pass1Of fsys filenames sm km).1 tk cr)) sf
        (pass2 (unionSensors (pass1Of fsys filenames sm km).1 tk cr) sf rep
          (pass1Of fsys filenames sm km).2 ⟨[], 0⟩).allData 0 0
        (allocUnionColumns
          (buildUnionInfo (unionSensors (pass1Of fsys filenames sm km).1 tk cr))
          (pass2 (unionSensors (pass1Of fsys filenames sm km).1 tk cr) sf rep
            (pass1Of fsys filenames sm km).2 ⟨[], 0⟩).total))[i] := by
      rw [List.getD_eq_getElem?_getD, List.getElem?_eq_getElem hi]
      rfl
    rw [← hgd, hlen2 i, alloc_getD _ _ _ hiu]
    simp
  · have key : ((copyAll (buildUnionInfo (unionSensors
        (pass1Of fsys filenames sm km).1 tk cr)) sf
        (pass2 (unionSensors (pass1Of fsys filenames sm km).1 tk cr) sf rep
          (pass1Of fsys filenames sm km).2 ⟨[], 0⟩).allData 0 0
        (allocUnionColumns
          (buildUnionInfo (unionSensors (pass1Of fsys filenames sm km).1 tk cr))
          (pass2 (unionSensors (pass1Of fsys filenames sm km).1 tk cr) sf rep
            (pass1Of fsys filenames sm km).2 ⟨[], 0⟩).total)).getD j []).getD
        r (.i8 0) =
        fillVal (((buildUnionInfo (unionSensors
          (pass1Of fsys filenames sm km).1 tk cr)).getD j default).size) := by
      rw [hAD]
      rw [copyAll_cell _ _ _ _ _ _ _ _ _ hnw, alloc_getD _ _ _ hj]
      rw [List.getD_eq_getElem?_getD, List.getElem?_replicate]
      simp [hr]
    exact key



/-- Witness for C4: two disjoint-roster files; union column "x" (int8) has its
second row unwritten and it holds the int8 sentinel -127. -/
theorem parse_multiple_files_fill_witness :
    (∀ c ∈ (parse_multiple_files fsPQ ["p", "q"] [] [] [] [] false false).columns,
      c.length = (parse_multiple_files fsPQ ["p", "q"] [] [] [] [] false
        false).n_records) ∧
    ((parse_multiple_files fsPQ ["p", "q"] [] [] [] [] false
        false).columns.getD 0 []).getD 1 (.i8 0) =
      fillVal (((parse_multiple_files fsPQ ["p", "q"] [] [] [] [] false
        false).sensor_info.getD 0 default).size) :=
  parse_multiple_files_fill fsPQ ["p", "q"] [] [] [] [] false false 0 1
    (by decide) (by decide) (by decide) (by decide) (by decide)

end Dbd

namespace Dbd

theorem assignIndices_length : ∀ (k : Nat) (ss : List Sensor),
    (assignIndices k ss).length = ss.length := by
  intro k ss
  induction ss generalizing k with
  | nil => rfl
  | cons s rest ih =>
    simp only [assignIndices]
    split <;> simp [ih]

theorem assignIndices_map {α : Type} (f : Sensor → α)
    (hf : ∀ (s : Sensor) (i : Int), f { s with index := i } = f s) :
    ∀ (k : Nat) (ss : List Sensor),
      (assignIndices k ss).map f = ss.map f := by
  intro k ss
  induction ss generalizing k with
  | nil => rfl
  | cons s rest ih =>
    simp only [assignIndices]
    split <;> simp [ih, hf]

theorem nToStore_assignIndices : ∀ (k : Nat) (ss : List Sensor),
    nToStore (assignIndices k ss) = nToStore ss := by
  intro k ss
  induction ss generalizing k with
  | nil => rfl
  | cons s rest ih =>
    simp only [assignIndices, nToStore]
    by_cases hk : s.qKeep <;> simp [hk, List.filter] at ih ⊢ <;>
      simp [nToStore] at ih <;> simp [ih]

theorem keptInfos_assignIndices : ∀ (k : Nat) (ss : List Sensor),
    keptInfos (assignIndices k ss) = keptInfos ss := by
  intro k ss
  induction ss generalizing k with
  | nil => rfl
  | cons s rest ih =>
    simp only [assignIndices, keptInfos]
    by_cases hk : s.qKeep <;> simp [hk, List.filter, keptInfos] at ih ⊢ <;>
      exact ih _

end Dbd

namespace Dbd

theorem set_append_singleton {α : Type} (l : List α) (d a : α) :
    (l ++ [d]).set l.length a = l ++ [a] := by
  induction l with
  | nil => rfl
  | cons x xs ih => simp [List.set, ih]

theorem take_succ_set {α : Type} (L : List α) (k : Nat) (a : α)
    (h : k < L.length) :
    (L.set k a).take (k + 1) = L.take k ++ [a] := by
  induction L generalizing k with
  | nil => simp at h
  | cons x xs ih =>
    cases k with
    | zero => simp
    | succ m =>
      simp only [List.set, List.take, List.cons_append]
      rw [ih m (by simpa using h)]

theorem insertRoster_app : ∀ (roster u : List RosterEntry),
    ((u ++ roster).map (fun e => e.name)).Nodup →
    insertRoster u roster = .ok (u ++ roster) := by
  intro roster
  induction roster with
  | nil => intro u _; simp [insertRoster]
  | cons e rest ih =>
    intro u hnd
    have h2 : ((u.map (fun x => x.name)) ++
        e.name :: rest.map (fun x => x.name)).Nodup := by
      simpa using hnd
    obtain ⟨_, _, hdisj⟩ := List.nodup_append.mp h2
    have hnotin : e.name ∉ u.map (fun x => x.name) := by
      intro hmem
      exact hdisj hmem (List.mem_cons_self _ _)
    have hfind : u.find? (fun x => x.name == e.name) = none := by
      rw [List.find?_eq_none]
      intro x hx
      simp only [beq_iff_eq]
      intro heq
      exact hnotin (heq ▸ List.mem_map_of_mem (fun x => x.name) hx)
    simp only [insertRoster, insertEntry, hfind]
    have := ih (u ++ [e]) (by
      rw [show (u ++ [e]) ++ rest = u ++ e :: rest by simp]
      exact hnd)
    rw [this]
    simp

end Dbd

namespace Dbd

theorem buildSensorInfo_aux : ∀ (ss : List Sensor) (acc : List SensorInfo),
    (assignIndices acc.length ss).foldl
      (fun info s =>
        if s.qKeep then
          (if info.length ≤ s.index.toNat then padTo info (s.index.toNat + 1)
           else info).set s.index.toNat ⟨s.name, s.units, s.size⟩
        else info) acc = acc ++ keptInfos ss := by
  intro ss
  induction ss with
  | nil => intro acc; simp [assignIndices, keptInfos]
  | cons s rest ih =>
    intro acc
    simp only [assignIndices]
    by_cases hk : s.qKeep
    · rw [if_pos hk, List.foldl_cons]
      dsimp only []
      rw [if_pos hk]
      simp only [Int.toNat_natCast]
      rw [if_pos (Nat.le_refl acc.length)]
      have hpad : padTo acc (acc.length + 1) = acc ++ [default] := by
        simp [padTo, List.replicate]
      rw [hpad, set_append_singleton]
      have hI := ih (acc ++ [(⟨s.name, s.units, s.size⟩ : SensorInfo)])
      simp only [List.length_append, List.length_cons, List.length_nil] at hI
      rw [hI]
      simp [keptInfos, hk, List.filter_cons, List.append_assoc]
    · rw [if_neg hk, List.foldl_cons]
      dsimp only []
      rw [if_neg hk]
      rw [ih acc]
      simp [keptInfos, hk, List.filter_cons]

theorem buildSensorInfo_assign (ss : List Sensor) :
    buildSensorInfo (assignIndices 0 ss) = keptInfos ss := by
  have := buildSensorInfo_aux ss []
  simpa [buildSensorInfo] using this

end Dbd

namespace Dbd

theorem nToStore_cons_pos (s : Sensor) (rest : List Sensor) (hk : s.qKeep = true) :
    nToStore (s :: rest) = 1 + nToStore rest := by
  simp [nToStore, List.filter_cons, hk]
  omega

theorem nToStore_cons_neg (s : Sensor) (rest : List Sensor) (hk : ¬s.qKeep = true) :
    nToStore (s :: rest) = nToStore rest := by
  simp [nToStore, List.filter_cons, hk]

theorem buildUnionInfo_aux (B : Nat) : ∀ (ss : List Sensor) (k : Nat)
    (L : List SensorInfo), L.length = B → k + nToStore ss = B →
    (assignIndices k ss).foldl
      (fun info s =>
        if s.qKeep then
          if 0 ≤ s.index ∧ s.index.toNat < B then
            info.set s.index.toNat ⟨s.name, s.units, s.size⟩
          else info
        else info) L = L.take k ++ keptInfos ss := by
  intro ss
  induction ss with
  | nil =>
    intro k L hL hkB
    simp only [nToStore, List.filter_nil, List.length_nil, Nat.add_zero] at hkB
    simp only [assignIndices, List.foldl_nil, keptInfos, List.filter_nil,
      List.map_nil, List.append_nil]
    rw [hkB, ← hL, List.take_length]
  | cons s rest ih =>
    intro k L hL hkB
    simp only [assignIndices]
    by_cases hk : s.qKeep
    · rw [if_pos hk, List.foldl_cons]
      dsimp only []
      rw [if_pos hk]
      have hcnt : k + (1 + nToStore rest) = B := by
        rw [← nToStore_cons_pos s rest hk]; exact hkB
      have hklt : k < B := by omega
      rw [if_pos (by simp [Int.toNat_natCast]; omega)]
      simp only [Int.toNat_natCast]
      have hI := ih (k + 1) (L.set k ⟨s.name, s.units, s.size⟩)
        (by simp [hL]) (by omega)
      rw [hI]
      rw [take_succ_set L k _ (by omega)]
      simp [keptInfos, hk, List.filter_cons, List.append_assoc]
    · rw [if_neg hk, List.foldl_cons]
      dsimp only []
      rw [if_neg hk]
      have hI := ih k L hL (by rw [← nToStore_cons_neg s rest hk]; exact hkB)
      rw [hI]
      simp [keptInfos, hk, List.filter_cons]

theorem buildUnionInfo_assign (ss : List Sensor) :
    buildUnionInfo (assignIndices 0 ss) = keptInfos ss := by
  simp only [buildUnionInfo]
  have hB := nToStore_assignIndices 0 ss
  have := buildUnionInfo_aux (nToStore (assignIndices 0 ss)) ss 0
    (List.replicate (nToStore (assignIndices 0 ss)) default)
    (by simp) (by omega)
  simpa using this

end Dbd

namespace Dbd

theorem find_name_nodup : ∀ (S : List Sensor),
    ((S.map (fun s => s.name)).Nodup) → ∀ (i : Nat) (hi : i < S.length),
    S.find? (fun u => u.name == S[i].name) = some S[i] := by
  intro S
  induction S with
  | nil => intro _ i hi; simp at hi
  | cons s S ih =>
    intro hnd i hi
    cases i with
    | zero => simp [List.find?]
    | succ k =>
      have hk : k < S.length := by simpa using hi
      have hne : ¬(s.name == (S[k]).name) = true := by
        simp only [beq_iff_eq]
        intro h
        have : s.name ∈ S.map (fun x => x.name) := by
          rw [h]
          exact List.mem_map_of_mem _ (S.getElem_mem hk)
        exact (List.nodup_cons.mp (by simpa using hnd)).1 this
      have hsk : (s :: S)[k + 1] = S[k] := by simp
      have hne' : (s.name == S[k].name) = false := by simpa using hne
      rw [hsk]
      simp only [List.find?_cons, hne']
      exact ih (List.nodup_cons.mp (by simpa using hnd)).2 k hk

theorem maskedRoster_name (tk cr : List String) (roster : List RosterEntry) :
    (assignIndices 0 (maskedRoster tk cr roster)).map (fun s => s.name) =
      roster.map (fun e => e.name) := by
  rw [assignIndices_map (fun s => s.name) (fun s i => rfl)]
  simp [maskedRoster, List.map_map]

theorem maskedRoster_units (tk cr : List String) (roster : List RosterEntry) :
    (assignIndices 0 (maskedRoster tk cr roster)).map (fun s => s.units) =
      roster.map (fun e => e.units) := by
  rw [assignIndices_map (fun s => s.units) (fun s i => rfl)]
  simp [maskedRoster, List.map_map]

theorem maskedRoster_size (tk cr : List String) (roster : List RosterEntry) :
    (assignIndices 0 (maskedRoster tk cr roster)).map (fun s => s.size) =
      roster.map (fun e => e.size) := by
  rw [assignIndices_map (fun s => s.size) (fun s i => rfl)]
  simp [maskedRoster, List.map_map]

theorem reindex_self (tk cr : List String) (roster : List RosterEntry)
    (hnd : (roster.map (fun e => e.name)).Nodup) :
    reindexRoster (assignIndices 0 (maskedRoster tk cr roster)) roster =
      assignIndices 0 (maskedRoster tk cr roster) := by
  have hlen : (assignIndices 0 (maskedRoster tk cr roster)).length = roster.length := by
    rw [assignIndices_length]; simp [maskedRoster]
  apply List.ext_getElem
  · simp [reindexRoster, hlen]
  · intro i h1 h2
    have hir : i < roster.length := by simpa [reindexRoster] using h1
    have hiS : i < (assignIndices 0 (maskedRoster tk cr roster)).length := h2
    have hname : (assignIndices 0 (maskedRoster tk cr roster))[i].name =
        roster[i].name := by
      have := congrArg (fun l => l.getD i "") (maskedRoster_name tk cr roster)
      simpa [List.getD_eq_getElem?_getD, List.getElem?_map,
        List.getElem?_eq_getElem, hir, hiS] using this
    have hunits : (assignIndices 0 (maskedRoster tk cr roster))[i].units =
        roster[i].units := by
      have := congrArg (fun l => l.getD i "") (maskedRoster_units tk cr roster)
      simpa [List.getD_eq_getElem?_getD, List.getElem?_map,
        List.getElem?_eq_getElem, hir, hiS] using this
    have hsize : (assignIndices 0 (maskedRoster tk cr roster))[i].size =
        roster[i].size := by
      have := congrArg (fun l => l.getD i 0) (maskedRoster_size tk cr roster)
      simpa [List.getD_eq_getElem?_getD, List.getElem?_map,
        List.getElem?_eq_getElem, hir, hiS] using this
    have hndS : ((assignIndices 0 (maskedRoster tk cr roster)).map
        (fun s => s.name)).Nodup := by
      rw [maskedRoster_name]; exact hnd
    have hfind := find_name_nodup _ hndS i hiS
    rw [hname] at hfind
    show (reindexRoster (assignIndices 0 (maskedRoster tk cr roster)) roster)[i] = _
    simp only [reindexRoster, List.getElem_map, hfind]
    rw [← hname, ← hunits, ← hsize]

end Dbd

namespace Dbd

theorem processSensor_cols_len (kb : KnownBytes) (fills : List Val)
    (bits : List Nat) (nRows i : Nat) (s : Sensor) (st st' : RecState)
    (h : processSensor kb fills bits nRows i s st = .ok st') :
    st'.columns.length = st.columns.length := by
  unfold processSensor at h
  by_cases h1 : codeOf bits i = 1
  · simp only [h1, reduceIte] at h
    split at h <;> cases h
    · rfl
    · simp [List.length_set]
  · by_cases h2 : codeOf bits i = 2
    · simp only [h1, h2, reduceIte] at h
      norm_num at h
      split at h
      · split at h
        · simp at h
        · split at h <;> cases h
          · rfl
          · simp [List.length_set]
      · split at h
        · simp at h
        · split at h <;> cases h
          · rfl
          · simp [List.length_set]
      · split at h
        · simp at h
        · split at h <;> cases h
          · rfl
          · simp [List.length_set]
      · split at h
        · simp at h
        · split at h <;> cases h
          · rfl
          · simp [List.length_set]
      · simp at h
    · simp only [h1, h2, reduceIte] at h
      cases h
      rfl

theorem processSensors_cols_len (kb : KnownBytes) (fills : List Val)
    (bits : List Nat) (nRows : Nat) :
    ∀ (ss : List (Nat × Sensor)) (st st' : RecState),
      processSensors kb fills bits nRows ss st = .ok st' →
      st'.columns.length = st.columns.length := by
  intro ss
  induction ss with
  | nil =>
    intro st st' h
    simp only [processSensors] at h
    cases h
    rfl
  | cons p rest ih =>
    obtain ⟨i, s⟩ := p
    intro st st' h
    simp only [processSensors] at h
    cases hps : processSensor kb fills bits nRows i s st with
    | error e => rw [hps] at h; simp at h
    | ok mid =>
      rw [hps] at h
      rw [ih mid st' h]
      exact processSensor_cols_len kb fills bits nRows i s st mid hps

theorem loopAux_cols_len (kb : KnownBytes) (sensors : List (Nat × Sensor))
    (qRepair : Bool) (fills : List Val) (nHeader : Nat) :
    ∀ (fuel : Nat) (st : DecodeState),
      (loopAux kb sensors qRepair fills nHeader fuel st).columns.length =
        st.columns.length := by
  intro fuel
  induction fuel with
  | zero => intro st; rfl
  | succ f ih =>
    intro st
    rw [loopAux]
    rcases hs : st.stream with _ | ⟨tag, rest⟩
    · rfl
    · simp only []
      split
      · rfl
      · split
        · rfl
        · split
          · rfl
          · rename_i s1 bits s2 heq
            split
            · rfl
            · rename_i r hr
              rw [ih]
              exact processSensors_cols_len kb fills bits st.nRows sensors _ r hr

theorem read_columns_shape (stream : List Nat) (kb : KnownBytes)
    (ss : List Sensor) (rep : Bool) (nB : Nat) :
    (read_columns stream kb ss rep nB).sensor_info = buildSensorInfo ss ∧
    (read_columns stream kb ss rep nB).columns.length =
      (buildSensorInfo ss).length ∧
    ∀ c ∈ (read_columns stream kb ss rep nB).columns,
      c.length = (read_columns stream kb ss rep nB).n_records := by
  refine ⟨rfl, ?_, ?_⟩
  · simp only [read_columns]
    rw [List.length_map, List.length_zip, loopAux_cols_len]
    simp
  · intro c hc
    simp only [read_columns] at hc ⊢
    obtain ⟨p, hp, rfl⟩ := List.mem_map.mp hc
    rw [listResize_length]

end Dbd

namespace Dbd

theorem getD_set_self_lt {α : Type} (l : List α) (n : Nat) (a d : α)
    (h : n < l.length) : (l.set n a).getD n d = a := by
  simp [List.getD, List.getElem?_set_self, h]

theorem writeRows_nil (offset : Nat) (src : List Val) (start n : Nat) :
    writeRows [] offset src start n = [] :=
  List.eq_nil_of_length_eq_zero (by rw [writeRows_length]; rfl)

theorem set_append_cons_len {α : Type} (a : α) :
    ∀ (l1 : List α) (x : α) (l2 : List α) (k : Nat), k = l1.length →
    (l1 ++ x :: l2).set k a = l1 ++ a :: l2 := by
  intro l1
  induction l1 with
  | nil => intro x l2 k hk; subst hk; rfl
  | cons y ys ih =>
    intro x l2 k hk
    subst hk
    simp only [List.cons_append, List.length_cons, List.set, List.append_eq]
    rw [ih x l2 ys.length rfl]

theorem writeRows_splice : ∀ (n : Nat) (dst src : List Val),
    n ≤ dst.length → n ≤ src.length →
    writeRows dst 0 src 0 n = src.take n ++ dst.drop n := by
  intro n
  induction n with
  | zero => intro dst src _ _; simp [writeRows]
  | succ m ih =>
    intro dst src hd hs
    have hmd : m < dst.length := by omega
    have hms : m < src.length := by omega
    have hstep : writeRows dst 0 src 0 (m + 1) =
        (writeRows dst 0 src 0 m).set m (src.getD m (.i8 0)) := by
      simp only [writeRows]
      rw [List.range_succ, List.foldl_append]
      simp
    rw [hstep, ih dst src (by omega) (by omega)]
    rw [List.drop_eq_getElem_cons hmd]
    rw [set_append_cons_len (src.getD m (.i8 0)) (src.take m) _ _ m
      (by simp [List.length_take]; omega)]
    have hget : src.getD m (.i8 0) = src[m] := by
      rw [List.getD_eq_getElem?_getD, List.getElem?_eq_getElem hms]
      rfl
    rw [hget, show List.take (m + 1) src = List.take m src ++ [src[m]] by
      rw [List.take_succ, List.getElem?_eq_getElem hms]; rfl]
    rw [List.append_assoc, List.singleton_append]

theorem writeRows_full (dst src : List Val) (n : Nat)
    (hd : dst.length = n) (hs : src.length = n) :
    writeRows dst 0 src 0 n = src := by
  have h1 : src.take n = src := List.take_of_length_le (by omega)
  have h2 : dst.drop n = [] := List.drop_eq_nil_of_le (by omega)
  rw [writeRows_splice n dst src (by omega) (by omega), h1, h2, List.append_nil]

end Dbd

namespace Dbd

theorem copy_enum_aux (look : Nat → Option Nat) (offset start n : Nat) :
    ∀ (src : List (List Val)) (k : Nat) (cs : List (List Val)) (j : Nat),
      (∀ i, k ≤ i → i < k + src.length → look i = some i) →
      ((src.enumFrom k).foldl
        (fun (cs : List (List Val)) p =>
          match look p.1 with
          | none => cs
          | some ui => cs.set ui (writeRows (cs.getD ui []) offset p.2 start n))
        cs).getD j [] =
      if k ≤ j ∧ j < k + src.length then
        writeRows (cs.getD j []) offset (src.getD (j - k) []) start n
      else cs.getD j [] := by
  intro src
  induction src with
  | nil =>
    intro k cs j hl
    rw [if_neg (by simp)]
    rfl
  | cons c rest ih =>
    intro k cs j hl
    have hk : look k = some k := hl k (Nat.le_refl k) (by simp)
    simp only [List.enumFrom, List.foldl_cons, List.length_cons]
    rw [hk]
    have hl' : ∀ i, k + 1 ≤ i → i < k + 1 + rest.length → look i = some i := by
      intro i h1 h2
      exact hl i (by omega) (by simp; omega)
    rw [ih (k + 1) (cs.set k (writeRows (cs.getD k []) offset c start n)) j hl']
    by_cases hj : j = k
    · subst hj
      rw [if_neg (by omega), if_pos (by constructor <;> omega)]
      rw [Nat.sub_self]
      show _ = writeRows (cs.getD j []) offset c start n
      by_cases hin : j < cs.length
      · rw [getD_set_self_lt _ _ _ _ hin]
      · rw [set_oob _ _ _ (Nat.le_of_not_lt hin)]
        rw [List.getD_eq_default _ _ (Nat.le_of_not_lt hin)]
        rw [writeRows_nil]
    · rw [getD_set_ne cs _ _ hj]
      by_cases hcond : k + 1 ≤ j ∧ j < k + 1 + rest.length
      · rw [if_pos hcond, if_pos (by omega)]
        have hsub : j - k = (j - (k + 1)) + 1 := by omega
        rw [hsub, List.getD_cons_succ]
      · rw [if_neg hcond, if_neg (by omega)]

theorem copyFile_ident (uI : List SensorInfo) (fd : ColumnDataResult)
    (offset start n : Nat) (cols : List (List Val)) (j : Nat)
    (hl : ∀ i, i < fd.columns.length →
      unionNameIdx uI ((fd.sensor_info.getD i default).name) = some i) :
    (copyFile uI fd offset start n cols).getD j [] =
      if j < fd.columns.length then
        writeRows (cols.getD j []) offset (fd.columns.getD j []) start n
      else cols.getD j [] := by
  unfold copyFile
  have h := copy_enum_aux
    (fun ci => unionNameIdx uI (fd.sensor_info.getD ci default).name)
    offset start n fd.columns 0 cols j
    (fun i _ h2 => hl i (by simpa using h2))
  have h' : (fd.columns.enum.foldl
      (fun (cs : List (List Val)) p =>
        match unionNameIdx uI (fd.sensor_info.getD p.1 default).name with
        | none => cs
        | some ui => cs.set ui (writeRows (cs.getD ui []) offset p.2 start n))
      cols).getD j [] =
      if 0 ≤ j ∧ j < 0 + fd.columns.length then
        writeRows (cols.getD j []) offset (fd.columns.getD (j - 0) []) start n
      else cols.getD j [] := h
  rw [h']
  by_cases hj : j < fd.columns.length
  · rw [if_pos (by omega : 0 ≤ j ∧ j < 0 + fd.columns.length), if_pos hj]
    rw [Nat.sub_zero]
  · rw [if_neg (by omega : ¬(0 ≤ j ∧ j < 0 + fd.columns.length)), if_neg hj]

end Dbd

namespace Dbd

theorem unionIdx_fold_none (nm : String) :
    ∀ (l : List SensorInfo) (k : Nat) (acc : Option Nat),
      (∀ i, i < l.length → (l.getD i default).name ≠ nm) →
      (l.enumFrom k).foldl
        (fun acc p => if p.2.name == nm then some p.1 else acc) acc = acc := by
  intro l
  induction l with
  | nil => intro k acc _; rfl
  | cons s rest ih =>
    intro k acc hno
    simp only [List.enumFrom, List.foldl_cons]
    have h0 : ¬(s.name == nm) = true := by
      have := hno 0 (by simp)
      simpa using this
    rw [if_neg h0]
    exact ih (k + 1) acc
      (fun i hi => hno (i + 1) (by simpa using Nat.succ_lt_succ hi))

theorem unionIdx_fold_hit (nm : String) :
    ∀ (l : List SensorInfo) (k j : Nat) (acc : Option Nat),
      j < l.length → (l.getD j default).name = nm →
      (∀ i, i < l.length → i ≠ j → (l.getD i default).name ≠ nm) →
      (l.enumFrom k).foldl
        (fun acc p => if p.2.name == nm then some p.1 else acc) acc =
        some (k + j) := by
  intro l
  induction l with
  | nil => intro k j acc hj _ _; simp at hj
  | cons s rest ih =>
    intro k j acc hj hname hothers
    simp only [List.enumFrom, List.foldl_cons]
    cases j with
    | zero =>
      have h0 : (s.name == nm) = true := by simpa using hname
      rw [if_pos h0]
      rw [unionIdx_fold_none nm rest (k + 1) (some k)
        (fun i hi => hothers (i + 1) (by simpa using Nat.succ_lt_succ hi)
          (by omega))]
      simp
    | succ m =>
      have hm : m < rest.length := by simpa using hj
      have h0 : ¬(s.name == nm) = true := by
        have := hothers 0 (by simp) (by omega)
        simpa using this
      rw [if_neg h0]
      rw [ih (k + 1) m acc hm hname
        (fun i hi hne => hothers (i + 1) (by simpa using Nat.succ_lt_succ hi)
          (by omega))]
      congr 1
      omega

theorem unionNameIdx_self (uI : List SensorInfo)
    (hnd : (uI.map (fun si => si.name)).Nodup) (j : Nat) (hj : j < uI.length) :
    unionNameIdx uI ((uI.getD j default).name) = some j := by
  have hothers : ∀ i, i < uI.length → i ≠ j →
      (uI.getD i default).name ≠ (uI.getD j default).name := by
    intro i hi hne heq
    apply hne
    have hgdi : uI.getD i default = uI[i] := by
      rw [List.getD_eq_getElem?_getD, List.getElem?_eq_getElem hi]; rfl
    have hgdj : uI.getD j default = uI[j] := by
      rw [List.getD_eq_getElem?_getD, List.getElem?_eq_getElem hj]; rfl
    rw [hgdi, hgdj] at heq
    have hil : i < (uI.map (fun si => si.name)).length := by simpa using hi
    have hjl : j < (uI.map (fun si => si.name)).length := by simpa using hj
    have hgi : (uI.map (fun si => si.name))[i] =
        (uI.map (fun si => si.name))[j] := by
      simp only [List.getElem_map]
      exact heq
    exact (List.Nodup.getElem_inj_iff hnd).mp hgi
  have h := unionIdx_fold_hit ((uI.getD j default).name) uI 0 j none hj rfl
    hothers
  have h2 : (uI.enumFrom 0).foldl
      (fun acc p =>
        if p.2.name == (uI.getD j default).name then some p.1 else acc)
      none = some j := by simpa using h
  exact h2

end Dbd

namespace Dbd

theorem copy_single (uI : List SensorInfo) (RES : ColumnDataResult)
    (hinfo : RES.sensor_info = uI)
    (hnd : (uI.map (fun si => si.name)).Nodup)
    (hclen : RES.columns.length = uI.length)
    (hcols : ∀ c ∈ RES.columns, c.length = RES.n_records) :
    copyAll uI false [RES] 0 0 (allocUnionColumns uI RES.n_records) =
      RES.columns := by
  simp only [copyAll]
  rw [if_neg
    (by simp : ¬(false && decide ((0:Nat) > 0) &&
      decide (RES.n_records > 0)) = true)]
  simp only [Nat.sub_zero, Nat.zero_add]
  by_cases hn : RES.n_records = 0
  · rw [if_pos hn]
    apply List.ext_getElem
    · rw [alloc_length, ← hclen]
    · intro i h1 h2
      have hz : RES.columns[i] = [] :=
        List.eq_nil_of_length_eq_zero
          (by rw [hcols RES.columns[i] (List.getElem_mem h2), hn])
      rw [hz]
      simp [allocUnionColumns, hn]
  · rw [if_neg hn]
    have hl : ∀ i, i < RES.columns.length →
        unionNameIdx uI ((RES.sensor_info.getD i default).name) = some i := by
      intro i hi
      rw [hinfo]
      exact unionNameIdx_self uI hnd i (by omega)
    obtain ⟨hflen, hfcols⟩ := copyFile_len uI RES 0 0 RES.n_records
      (allocUnionColumns uI RES.n_records)
    apply List.ext_getElem
    · rw [hflen, alloc_length, ← hclen]
    · intro i h1 h2
      have hi : i < RES.columns.length := h2
      have h3 := copyFile_ident uI RES 0 0 RES.n_records
        (allocUnionColumns uI RES.n_records) i hl
      rw [if_pos hi] at h3
      rw [alloc_getD uI RES.n_records i (by omega)] at h3
      have h5 : RES.columns.getD i [] = RES.columns[i] := by
        rw [List.getD_eq_getElem?_getD, List.getElem?_eq_getElem hi]; rfl
      rw [h5] at h3
      rw [writeRows_full _ _ RES.n_records (by simp)
        (hcols _ (List.getElem_mem hi))] at h3
      rw [← h3]
      rw [List.getD_eq_getElem?_getD, List.getElem?_eq_getElem h1]
      rfl

end Dbd

namespace Dbd

theorem keptInfos_names_nodup (tk cr : List String) (roster : List RosterEntry)
    (hnd : (roster.map (fun e => e.name)).Nodup) :
    ((keptInfos (maskedRoster tk cr roster)).map (fun si => si.name)).Nodup := by
  have h1 : (keptInfos (maskedRoster tk cr roster)).map (fun si => si.name) =
      ((maskedRoster tk cr roster).filter (fun s => s.qKeep)).map
        (fun s => s.name) := by
    simp [keptInfos, List.map_map]
  have h2 : List.Sublist
      (((maskedRoster tk cr roster).filter (fun s => s.qKeep)).map
        (fun s => s.name))
      ((maskedRoster tk cr roster).map (fun s => s.name)) :=
    ((maskedRoster tk cr roster).filter_sublist).map (fun s => s.name)
  have h3 : (maskedRoster tk cr roster).map (fun s => s.name) =
      roster.map (fun e => e.name) := by
    simp [maskedRoster, List.map_map]
  rw [h1]
  rw [h3] at h2
  exact List.Nodup.sublist h2 hnd

end Dbd

namespace Dbd

end Dbd

namespace Dbd

theorem multi_single_core (fsys : String → FileModel) (p : String)
    (tk cr : List String) (rep : Bool) (kb : KnownBytes) (s1 : List Nat)
    (hnd : ((fsys p).roster.map (fun e => e.name)).Nodup)
    (hopen : (fsys p).openOk = true) (hhdr : (fsys p).headerOk = true)
    (hkb : knownBytes (if !(fsys p).factored then
        skipLines (fsys p).nSensors (fsys p).afterHeader
      else (fsys p).afterHeader) = .ok (kb, s1)) :
    parse_multiple_files fsys [p] tk cr [] [] false rep =
      ⟨(read_columns s1 kb (assignIndices 0 (maskedRoster tk cr (fsys p).roster)) rep (1024 * 1024)).columns, (read_columns s1 kb (assignIndices 0 (maskedRoster tk cr (fsys p).roster)) rep (1024 * 1024)).sensor_info, (read_columns s1 kb (assignIndices 0 (maskedRoster tk cr (fsys p).roster)) rep (1024 * 1024)).n_records, 1⟩ := by
  have hins : insertRoster [] (fsys p).roster = .ok ((fsys p).roster) := by
    have h := insertRoster_app (fsys p).roster [] (by simpa using hnd)
    simpa using h
  have hp1 : pass1Of fsys [p] [] [] =
      (⟨[(fsys p).crc], (fsys p).roster⟩, [(p, fsys p)]) := by
    show pass1 [] [] [(p, fsys p)] ⟨[], []⟩ [] = _
    simp only [pass1]
    rw [if_neg (by simp [hopen]), if_neg (by simp [hhdr]),
      if_neg (by simp [qProcessMission])]
    simp only [smapInsert]
    rw [if_neg (by simp)]
    rw [hins]
    simp [pass1]
  have hp2 : pass2 (assignIndices 0 (maskedRoster tk cr (fsys p).roster)) false rep [(p, fsys p)] ⟨[], 0⟩ =
      ⟨[read_columns s1 kb (assignIndices 0 (maskedRoster tk cr (fsys p).roster)) rep (1024 * 1024)], (read_columns s1 kb (assignIndices 0 (maskedRoster tk cr (fsys p).roster)) rep (1024 * 1024)).n_records⟩ := by
    simp only [pass2]
    rw [if_neg (by simp [hopen]), if_neg (by simp [hhdr])]
    rw [hkb]
    dsimp only []
    rw [reindex_self tk cr (fsys p).roster hnd]
    simp only [Bool.false_and]
    rw [if_neg (by simp : ¬(false = true))]
    simp [pass2]
  have hR : parse_multiple_files fsys [p] tk cr [] [] false rep =
      ⟨copyAll (buildUnionInfo (assignIndices 0 (maskedRoster tk cr (fsys p).roster))) false
          (pass2 (assignIndices 0 (maskedRoster tk cr (fsys p).roster)) false rep [(p, fsys p)] ⟨[], 0⟩).allData 0 0
          (allocUnionColumns (buildUnionInfo (assignIndices 0 (maskedRoster tk cr (fsys p).roster)))
            (pass2 (assignIndices 0 (maskedRoster tk cr (fsys p).roster)) false rep [(p, fsys p)] ⟨[], 0⟩).total),
        buildUnionInfo (assignIndices 0 (maskedRoster tk cr (fsys p).roster)),
        (pass2 (assignIndices 0 (maskedRoster tk cr (fsys p).roster)) false rep [(p, fsys p)] ⟨[], 0⟩).total, 1⟩ := by
    simp only [parse_multiple_files]
    rw [if_neg (by simp : ¬(([p] : List String).isEmpty = true))]
    rw [hp1]
    dsimp only []
    rw [if_neg (by simp :
      ¬(([(p, fsys p)] : List (String × FileModel)).isEmpty = true))]
    rfl
  rw [hR, hp2]
  dsimp only []
  obtain ⟨hsi, hclen, hcols⟩ := read_columns_shape s1 kb (assignIndices 0 (maskedRoster tk cr (fsys p).roster)) rep (1024 * 1024)
  have hUI : buildUnionInfo (assignIndices 0 (maskedRoster tk cr (fsys p).roster)) = buildSensorInfo (assignIndices 0 (maskedRoster tk cr (fsys p).roster)) := by
    rw [buildUnionInfo_assign, buildSensorInfo_assign]
  have hinfo : (read_columns s1 kb (assignIndices 0 (maskedRoster tk cr (fsys p).roster)) rep (1024 * 1024)).sensor_info = buildUnionInfo (assignIndices 0 (maskedRoster tk cr (fsys p).roster)) := by
    rw [hUI]; exact hsi
  have hndU : ((buildUnionInfo (assignIndices 0 (maskedRoster tk cr (fsys p).roster))).map (fun si => si.name)).Nodup := by
    rw [buildUnionInfo_assign]
    exact keptInfos_names_nodup tk cr (fsys p).roster hnd
  have hclen2 : (read_columns s1 kb (assignIndices 0 (maskedRoster tk cr (fsys p).roster)) rep (1024 * 1024)).columns.length = (buildUnionInfo (assignIndices 0 (maskedRoster tk cr (fsys p).roster))).length := by
    rw [hUI]; exact hclen
  have hcopy := copy_single (buildUnionInfo (assignIndices 0 (maskedRoster tk cr (fsys p).roster))) (read_columns s1 kb (assignIndices 0 (maskedRoster tk cr (fsys p).roster)) rep (1024 * 1024)) hinfo hndU hclen2 hcols
  rw [hcopy, ← hinfo]

end Dbd

namespace Dbd

/-- C6 (amended): with `skip_first_record` disabled and no mission filters,
the multi-file reader on the one-element list `[p]` returns exactly what the
single-file reader returns for `p` — the same columns, the same sensor
metadata and the same record count, with `n_files = 1` — provided the file's
sensor names are distinct and the single-file parse succeeds. (As the
counterexample shows, the original unconditional claim fails when
`skip_first_record` is set: the single reader drops the first record, the
multi reader's first parse slot keeps it.) -/
theorem c6_amended (fsys : String → FileModel) (p : String)
    (tk cr : List String) (rep : Bool) (r : SingleFileResult)
    (hnd : ((fsys p).roster.map (fun e => e.name)).Nodup)
    (hok : parse_single_file (fsys p) tk cr false rep = .ok r) :
    parse_multiple_files fsys [p] tk cr [] [] false rep =
      ⟨singleColumns r, r.sensor_info, r.n_records, 1⟩ := by
  simp only [parse_single_file] at hok
  by_cases hopen : (fsys p).openOk
  swap
  · have h' : (fsys p).openOk = false := by simpa using hopen
    rw [if_pos (by simp [h'])] at hok
    simp at hok
  rw [if_neg (by simp [hopen])] at hok
  by_cases hhdr : (fsys p).headerOk
  swap
  · have h' : (fsys p).headerOk = false := by simpa using hhdr
    rw [if_pos (by simp [h'])] at hok
    simp at hok
  rw [if_neg (by simp [hhdr])] at hok
  by_cases hros : (fsys p).roster.isEmpty
  · rw [if_pos hros] at hok
    simp at hok
  rw [if_neg hros] at hok
  cases hkb : knownBytes (if !(fsys p).factored then
      skipLines (fsys p).nSensors (fsys p).afterHeader
    else (fsys p).afterHeader) with
  | error e =>
    rw [hkb] at hok
    simp at hok
  | ok pr =>
    obtain ⟨kb, s1⟩ := pr
    rw [hkb] at hok
    simp only [Bool.false_and] at hok
    rw [if_neg (by simp : ¬(false = true))] at hok
    simp only [Nat.sub_zero, Except.ok.injEq] at hok
    subst hok
    rw [multi_single_core fsys p tk cr rep kb s1 hnd hopen hhdr hkb]
    simp [singleColumns]

end Dbd

namespace Dbd

/-- Witness for the amended C6: the two-record file parses identically
through both readers when `skip_first_record` is off. -/
theorem c6_amended_witness :
    parse_multiple_files (fun _ => fileB) ["b"] [] [] [] [] false false =
      ⟨singleColumns ⟨[[.i8 5, .i8 7]], [⟨"a", "u", 1⟩], 2, 0⟩,
       [⟨"a", "u", 1⟩], 2, 1⟩ ∧
    parse_single_file fileB [] [] false false =
      .ok ⟨[[.i8 5, .i8 7]], [⟨"a", "u", 1⟩], 2, 0⟩ :=
  ⟨c6_amended (fun _ => fileB) "b" [] [] false
      ⟨[[.i8 5, .i8 7]], [⟨"a", "u", 1⟩], 2, 0⟩ (by decide) (by decide),
   by decide⟩

/-- C6 (counterexample): with `skip_first_record` enabled the two readers
disagree on a one-element list. The single-file reader drops the file's first
record (1 record, column `[7]` after the start slice) while the multi-file
reader's first parse slot keeps every record (2 records, column `[5, 7]`). -/
theorem c6_counterexample :
    parse_single_file fileB [] [] true false =
      .ok ⟨[[.i8 5, .i8 7]], [⟨"a", "u", 1⟩], 1, 1⟩ ∧
    singleColumns ⟨[[.i8 5, .i8 7]], [⟨"a", "u", 1⟩], 1, 1⟩ = [[.i8 7]] ∧
    (parse_multiple_files (fun _ => fileB) ["b"] [] [] [] []
      true false).n_records = 2 ∧
    (parse_multiple_files (fun _ => fileB) ["b"] [] [] [] []
      true false).columns = [[.i8 5, .i8 7]] :=
  ⟨by decide, by decide, by decide, by decide⟩

end Dbd
